import Mathlib

/-!
Verification of the UMA-NDE image-based OCR reading-order pipeline
(`code_reference/ImageBasedProcessing_Claude`, stages 4 through 9).

The Python stages are shallowly embedded as total Lean functions over an
explicit record type for OCR text blocks.  Machine floats of the source are
modelled as rationals (`ℚ`); Python's `int(round(x))` (banker's rounding,
half to even) is modelled by `pyRound`; Python `None` becomes `Option`.
JSON dictionaries become structures; a `dict.get(key, d)` on a key that can
be absent is modelled by `Option.getD · d`.
-/

/-- Python's `round` on a rational: nearest integer, ties to even. -/
def pyRound (q : ℚ) : ℤ :=
  let f : ℤ := ⌊q⌋
  let r : ℚ := q - (f : ℚ)
  if r < 1/2 then f
  else if 1/2 < r then f + 1
  else if f % 2 = 0 then f else f + 1

/-- `int(round(math.sqrt n))` for a natural `n`: since `√n` is never exactly a
half-integer for integer `n`, this is the nearest integer to `√n`. -/
def roundSqrtNat (n : ℕ) : ℕ :=
  let k := n.sqrt
  if k * k + k < n then k + 1 else k

/-- Python `min` of a list of rationals (`0` for the empty list, which the
source never passes). -/
def listMinQ (l : List ℚ) : ℚ :=
  match l with
  | [] => 0
  | x :: xs => xs.foldl min x

/-- Python `min` of a list of integers (`0` for the empty list). -/
def listMinZ (l : List ℤ) : ℤ :=
  match l with
  | [] => 0
  | x :: xs => xs.foldl min x

/-- Python `max` of a list of integers (`0` for the empty list). -/
def listMaxZ (l : List ℤ) : ℤ :=
  match l with
  | [] => 0
  | x :: xs => xs.foldl max x

/-- Stable insertion into a sorted list: the new element goes in front of the
first element it is `le`-below-or-equal to, hence after any earlier element
with an equal key. -/
def insertStable {α : Type} (le : α → α → Bool) (x : α) : List α → List α
  | [] => [x]
  | y :: ys => if le x y then x :: y :: ys else y :: insertStable le x ys

/-- Python's stable `sorted` (any two stable sorts agree), as a structural
insertion sort: elements are inserted back front-to-back, so ties keep their
original order. -/
def pySorted {α : Type} (le : α → α → Bool) : List α → List α
  | [] => []
  | x :: xs => insertStable le x (pySorted le xs)

theorem length_insertStable {α : Type} (le : α → α → Bool) (x : α) (l : List α) :
    (insertStable le x l).length = l.length + 1 := by
  induction l with
  | nil => rfl
  | cons y ys ih =>
    unfold insertStable
    by_cases h : le x y
    · rw [if_pos h]; rfl
    · rw [if_neg h]; simp [ih]

theorem length_pySorted {α : Type} (le : α → α → Bool) (l : List α) :
    (pySorted le l).length = l.length := by
  induction l with
  | nil => rfl
  | cons x xs ih =>
    unfold pySorted
    rw [length_insertStable, ih]
    rfl

theorem mem_insertStable {α : Type} (le : α → α → Bool) (x a : α) (l : List α) :
    a ∈ insertStable le x l ↔ a = x ∨ a ∈ l := by
  induction l with
  | nil => simp [insertStable]
  | cons y ys ih =>
    unfold insertStable
    by_cases h : le x y
    · rw [if_pos h]; simp
    · rw [if_neg h]
      simp only [List.mem_cons, ih]
      tauto

theorem mem_pySorted {α : Type} (le : α → α → Bool) (a : α) (l : List α) :
    a ∈ pySorted le l ↔ a ∈ l := by
  induction l with
  | nil => simp [pySorted]
  | cons x xs ih =>
    unfold pySorted
    rw [mem_insertStable]
    simp [ih]

theorem pairwise_insertStable {α : Type} {le : α → α → Bool}
    (htot : ∀ a b, le a b = true ∨ le b a = true)
    (htr : ∀ a b c, le a b = true → le b c = true → le a c = true)
    (x : α) {l : List α}
    (hl : List.Pairwise (fun a b => le a b = true) l) :
    List.Pairwise (fun a b => le a b = true) (insertStable le x l) := by
  induction l with
  | nil => simp [insertStable]
  | cons y ys ih =>
    unfold insertStable
    rcases List.pairwise_cons.mp hl with ⟨hy, hys⟩
    by_cases h : le x y
    · rw [if_pos h]
      refine List.pairwise_cons.mpr ⟨?_, hl⟩
      intro z hz
      rcases List.mem_cons.mp hz with hz | hz
      · rw [hz]; exact h
      · exact htr x y z h (hy z hz)
    · rw [if_neg h]
      refine List.pairwise_cons.mpr ⟨?_, ih hys⟩
      intro z hz
      rcases (mem_insertStable le x z ys).mp hz with hz | hz
      · rw [hz]
        rcases htot y x with hh | hh
        · exact hh
        · exact absurd hh (by simpa using h)
      · exact hy z hz

theorem pairwise_pySorted {α : Type} {le : α → α → Bool}
    (htot : ∀ a b, le a b = true ∨ le b a = true)
    (htr : ∀ a b c, le a b = true → le b c = true → le a c = true) (l : List α) :
    List.Pairwise (fun a b => le a b = true) (pySorted le l) := by
  induction l with
  | nil => simp [pySorted]
  | cons x xs ih =>
    unfold pySorted
    exact pairwise_insertStable htot htr x ih

/-- The adaptive-threshold record produced by stage 5
(`calculate_adaptive_thresholds`) and threaded through stages 6 and 7. -/
structure Thresholds where
  vertical_merge_tolerance : ℚ
  horizontal_merge_gap : ℚ
  vertical_bucket_tolerance : ℚ
  horizontal_bucket_tolerance : ℚ
deriving DecidableEq

instance : Inhabited Thresholds := ⟨⟨50, 100, 70, 50⟩⟩

/-- An OCR text block (a Fragment / Line of the spec): the dictionaries
flowing through stages 4-6.  Coordinates are integers from stage 3 onward;
`mid_y_x` is kept as a rational because stage 4 recomputes it as
`mid_y + start_x / 50` before stage 5 rounds it to an integer. -/
structure Blk where
  text : String
  start_x : ℤ
  end_x : ℤ
  start_y : ℤ
  end_y : ℤ
  mid_x : ℤ
  mid_y : ℤ
  mid_y_x : ℚ
  height : ℤ
  width : ℤ
  confidence : ℚ
  char_count : ℤ
  word_count : ℤ
  character_width : Option ℤ
  prev_mid_y_diff : Option ℤ := none
  prev_horizontal_gap : Option ℤ := none
  prev_vertical_gap : Option ℤ := none
  prev_overlap_x : Option ℤ := none
  prev_overlap_y : Option ℤ := none
  prev_distance : Option ℤ := none
deriving DecidableEq

instance : Inhabited Blk :=
  ⟨{ text := "", start_x := 0, end_x := 0, start_y := 0, end_y := 0, mid_x := 0,
     mid_y := 0, mid_y_x := 0, height := 0, width := 0, confidence := 0,
     char_count := 0, word_count := 0, character_width := none }⟩

/-- Sort key comparison used everywhere: ascending `mid_y_x`
(`sorted(blocks, key=lambda b: b['mid_y_x'])`, a stable sort). -/
def blkKeyLe (a b : Blk) : Bool := a.mid_y_x ≤ b.mid_y_x

/-! ## Stage 4: merge quadrants (`stage_4_merge_quadrants.py`) -/

/-- `scale_coordinates_to_original`, per block: halve every coordinate with
`round(x / 2)` and recompute `mid_y_x = mid_y + start_x / 50` from the
halved values. -/
def scale_block (b : Blk) : Blk :=
  let sx := pyRound ((b.start_x : ℚ) / 2)
  let ex := pyRound ((b.end_x : ℚ) / 2)
  let mx := pyRound ((b.mid_x : ℚ) / 2)
  let sy := pyRound ((b.start_y : ℚ) / 2)
  let ey := pyRound ((b.end_y : ℚ) / 2)
  let my := pyRound ((b.mid_y : ℚ) / 2)
  let h := pyRound ((b.height : ℚ) / 2)
  { b with start_x := sx, end_x := ex, mid_x := mx, start_y := sy, end_y := ey,
           mid_y := my, height := h, mid_y_x := (my : ℚ) + (sx : ℚ) / 50 }

/-- `scale_coordinates_to_original` over a block list. -/
def scale_coordinates_to_original (blocks : List Blk) : List Blk :=
  blocks.map scale_block

/-- The confidence filter of `merge_page_quadrants`: keep blocks with
`confidence >= min_confidence`. -/
def confFilter (blocks : List Blk) (min_confidence : ℚ) : List Blk :=
  blocks.filter fun b => min_confidence ≤ b.confidence

/-- `merge_page_quadrants`: the page's quadrant block lists concatenated in
quadrant order (the `source_quadrant` tag does not affect any later stage and
is not modelled), filtered by confidence, sorted ascending by the stored
`mid_y_x` key (stable; ties keep insertion order), and only then scaled back
to original-screenshot pixel space. -/
def merge_page_quadrants (all_blocks : List Blk) (min_confidence : ℚ) : List Blk :=
  scale_coordinates_to_original (pySorted blkKeyLe (confFilter all_blocks min_confidence))

/-! ## Stage 5: `calculate_block_metrics` (`stage_5_metrics.py`)

Only the per-block fields and previous-neighbour relationship fields are
computed here; `calculate_adaptive_thresholds` itself is not needed by any
claim (the thresholds record is a parameter throughout). -/

/-- Per-block part of `calculate_block_metrics`: recompute `width` and
`character_width` (None on `char_count = 0`), and round every coordinate
field (coordinates are already integers; `mid_y_x` genuinely gets rounded). -/
def metricize (b : Blk) : Blk :=
  let width := b.end_x - b.start_x
  { b with
      width := width,
      character_width :=
        if 0 < b.char_count then some (pyRound ((width : ℚ) / (b.char_count : ℚ)))
        else none,
      mid_y_x := ((pyRound b.mid_y_x : ℤ) : ℚ) }

/-- Neighbour relationships of `calculate_block_metrics` for a non-first
block, against the previous block in the list. -/
def relate (prev b : Blk) : Blk :=
  let dy := b.mid_y - prev.mid_y
  let dx := b.mid_x - prev.mid_x
  { b with
      prev_mid_y_diff := some dy,
      prev_horizontal_gap := some (b.start_x - prev.end_x),
      prev_vertical_gap := some (b.start_y - prev.end_y),
      prev_overlap_x := some (min b.end_x prev.end_x - max b.start_x prev.start_x),
      prev_overlap_y := some (min b.end_y prev.end_y - max b.start_y prev.start_y),
      prev_distance := some ((roundSqrtNat (dx * dx + dy * dy).toNat : ℕ) : ℤ) }

/-- Clear the relationship fields (first block of a page). -/
def clearPrev (b : Blk) : Blk :=
  { b with prev_mid_y_diff := none, prev_horizontal_gap := none,
           prev_vertical_gap := none, prev_overlap_x := none,
           prev_overlap_y := none, prev_distance := none }

/-- Chain the neighbour computation down the list, each block related to the
already-processed previous one (as the Python in-place loop does). -/
def relateChain (prev : Blk) : List Blk → List Blk
  | [] => []
  | x :: xs =>
    let x' := relate prev x
    x' :: relateChain x' xs

/-- `calculate_block_metrics`. -/
def calculate_block_metrics (blocks : List Blk) : List Blk :=
  match blocks.map metricize with
  | [] => []
  | b :: rest =>
    let b0 := clearPrev b
    b0 :: relateChain b0 rest

/-! ## Stage 6: horizontal merge (`stage_6_horizontal_merge.py`) -/

/-- `character_width` with the source's falsy-value fallback: `None` or `0`
becomes `fallback`. -/
def charWidthOr (fallback : ℤ) (b : Blk) : ℤ :=
  match b.character_width with
  | none => fallback
  | some w => if w = 0 then fallback else w

/-- `should_merge_blocks`: vertical alignment strictly within the tolerance,
then horizontal gap strictly below the threshold.  With adaptive thresholds
the gap threshold is `3.0 *` the average of the two character widths (each
falling back to `36` when undefined or zero); without, the legacy
`2 * min(character_width)` with fallback `50`. -/
def should_merge_blocks (ref_block current_block : Blk)
    (thresholds : Option Thresholds) : Bool :=
  let vertical_tolerance : ℚ :=
    match thresholds with
    | some t => t.vertical_merge_tolerance
    | none => ((min (charWidthOr 50 ref_block) (charWidthOr 50 current_block) : ℤ) : ℚ)
  let horizontal_gap_threshold : ℚ :=
    match thresholds with
    | some _ =>
      ((charWidthOr 36 ref_block : ℚ) + (charWidthOr 36 current_block : ℚ)) / 2 * 3
    | none => 2 * ((min (charWidthOr 50 ref_block) (charWidthOr 50 current_block) : ℤ) : ℚ)
  if vertical_tolerance ≤ (|current_block.mid_y - ref_block.mid_y| : ℤ) then false
  else
    let gap : ℤ :=
      if current_block.start_x < ref_block.start_x then
        ref_block.start_x - current_block.end_x
      else
        current_block.start_x - ref_block.end_x
    decide ((gap : ℚ) < horizontal_gap_threshold)

/-- Python `a or b` on optional integers: `None` and `0` are falsy. -/
def orTruthy : Option ℤ → Option ℤ → Option ℤ
  | some w, b => if w = 0 then b else some w
  | none, b => b

/-- `merge_two_blocks`: text joined left-to-right by `start_x` with a single
space, union bounding box, summed counts plus one character for the space,
maximum confidence, relationship fields reset. -/
def merge_two_blocks (block1 block2 : Blk) : Blk :=
  let first_block := if block1.start_x ≤ block2.start_x then block1 else block2
  let second_block := if block1.start_x ≤ block2.start_x then block2 else block1
  let merged_text := first_block.text ++ " " ++ second_block.text
  let new_start_x := min first_block.start_x second_block.start_x
  let new_end_x := max first_block.end_x second_block.end_x
  let new_start_y := min first_block.start_y second_block.start_y
  let new_end_y := max first_block.end_y second_block.end_y
  let new_mid_x : ℚ := ((new_start_x : ℚ) + (new_end_x : ℚ)) / 2
  let new_mid_y : ℚ := ((new_start_y : ℚ) + (new_end_y : ℚ)) / 2
  let new_mid_y_x : ℚ := new_mid_y + (new_start_x : ℚ) / 50
  let new_width := new_end_x - new_start_x
  let new_height := new_end_y - new_start_y
  let new_char_count := first_block.char_count + second_block.char_count + 1
  let new_word_count := first_block.word_count + second_block.word_count
  let new_character_width : Option ℤ :=
    if 0 < new_char_count then some (pyRound ((new_width : ℚ) / (new_char_count : ℚ)))
    else orTruthy first_block.character_width second_block.character_width
  { text := merged_text,
    start_x := new_start_x, end_x := new_end_x,
    start_y := new_start_y, end_y := new_end_y,
    mid_x := pyRound new_mid_x, mid_y := pyRound new_mid_y,
    mid_y_x := ((pyRound new_mid_y_x : ℤ) : ℚ),
    height := new_height, width := new_width,
    confidence := max first_block.confidence second_block.confidence,
    char_count := new_char_count, word_count := new_word_count,
    character_width := new_character_width,
    prev_mid_y_diff := none, prev_horizontal_gap := none,
    prev_vertical_gap := none, prev_overlap_x := none,
    prev_overlap_y := none, prev_distance := none }

/-- The lookahead scan of `merge_blocks_recursive`: the first position
`j ∈ [i+1, min(i+1+20, len))` whose block should merge with the reference at
position `i`. -/
def findMergeIdx (thresholds : Option Thresholds) (l : List Blk) (i : ℕ) : Option ℕ :=
  (((l.drop (i + 1)).take 20).findIdx?
      (fun b => should_merge_blocks (l.getD i default) b thresholds)).map
    (fun k => i + 1 + k)

theorem findMergeIdx_bounds {thresholds : Option Thresholds} {l : List Blk} {i j : ℕ}
    (h : findMergeIdx thresholds l i = some j) : i < j ∧ j < l.length := by
  unfold findMergeIdx at h
  rcases Option.map_eq_some'.mp h with ⟨k, hk, rfl⟩
  have hlen := (List.findIdx?_eq_some_iff_findIdx_eq.mp hk).1
  simp only [List.length_take, List.length_drop] at hlen
  omega

/-- One merge of `merge_blocks_recursive`: replace the reference at `i` by
the merged block and remove the candidate at `j`. -/
def mergeAt (l : List Blk) (i j : ℕ) : List Blk :=
  (l.set i (merge_two_blocks (l.getD i default) (l.getD j default))).eraseIdx j

theorem mergeAt_length {l : List Blk} {i j : ℕ} (hj : j < l.length) :
    (mergeAt l i j).length = l.length - 1 := by
  unfold mergeAt
  rw [List.length_eraseIdx]
  simp [hj]

/-- The merge loop of `merge_blocks_recursive`: at each reference position,
repeatedly merge the first matching candidate in the 20-element lookahead
window (restarting the window scan from the same position), then advance. -/
def mergeLoop (thresholds : Option Thresholds) (l : List Blk) (i : ℕ) : List Blk :=
  if h : i < l.length then
    match hj : findMergeIdx thresholds l i with
    | some j => mergeLoop thresholds (mergeAt l i j) i
    | none => mergeLoop thresholds l (i + 1)
  else l
termination_by 2 * l.length - i
decreasing_by
  · have hb := findMergeIdx_bounds hj
    have := @mergeAt_length l i j hb.2
    omega
  · omega

/-- `merge_blocks_recursive`: lists with fewer than two blocks pass through
unchanged. -/
def merge_blocks_recursive (blocks : List Blk) (thresholds : Option Thresholds) : List Blk :=
  if blocks.length < 2 then blocks else mergeLoop thresholds blocks 0

/-- `merge_horizontal_for_page` on a page's block list: sort by `mid_y_x`,
merge recursively, re-sort, recompute the metrics. -/
def merge_horizontal_for_page (blocks : List Blk) (thresholds : Option Thresholds) : List Blk :=
  calculate_block_metrics
    (pySorted blkKeyLe (merge_blocks_recursive (pySorted blkKeyLe blocks) thresholds))

/-! ## Stage 7: vertical buckets (`stage_7_vertical_buckets.py`) -/

/-- `should_add_to_bucket`: vertical alignment of midlines strictly within
the bucket tolerance, then any of the three horizontal alignment tests —
`start_x` within twice the horizontal tolerance (indentation allowance),
`mid_x` or `end_x` within it.  Without adaptive thresholds, the legacy
height/char-width heuristics (non-positive or missing values become 50). -/
def should_add_to_bucket (bucket_last_element current_element : Blk)
    (thresholds : Option Thresholds) : Bool :=
  let vertical_threshold : ℚ :=
    match thresholds with
    | some t => t.vertical_bucket_tolerance
    | none =>
      let height_ref : ℤ :=
        if bucket_last_element.height ≤ 0 then 50 else bucket_last_element.height
      let height_current : ℤ :=
        if current_element.height ≤ 0 then 50 else current_element.height
      (14 : ℚ) / 10 * ((min height_ref height_current : ℤ) : ℚ)
  let horizontal_threshold : ℚ :=
    match thresholds with
    | some t => t.horizontal_bucket_tolerance
    | none =>
      let cw_ref : ℤ :=
        if bucket_last_element.character_width.getD 50 ≤ 0 then 50
        else bucket_last_element.character_width.getD 50
      let cw_current : ℤ :=
        if current_element.character_width.getD 50 ≤ 0 then 50
        else current_element.character_width.getD 50
      ((min cw_ref cw_current : ℤ) : ℚ)
  if vertical_threshold ≤ (|current_element.mid_y - bucket_last_element.mid_y| : ℤ) then
    false
  else if (|current_element.start_x - bucket_last_element.start_x| : ℤ) <
      2 * horizontal_threshold then true
  else if (|current_element.mid_x - bucket_last_element.mid_x| : ℤ) <
      horizontal_threshold then true
  else if (|current_element.end_x - bucket_last_element.end_x| : ℤ) <
      horizontal_threshold then true
  else false

/-- The inner `for bucket in buckets` loop of `create_buckets`: append the
element to the first bucket whose last member accepts it, else open a new
bucket at the end. -/
def addToBuckets (thresholds : Option Thresholds) (x : Blk) :
    List (List Blk) → List (List Blk)
  | [] => [[x]]
  | b :: rest =>
    if should_add_to_bucket (b.getLastD default) x thresholds then
      (b ++ [x]) :: rest
    else
      b :: addToBuckets thresholds x rest

/-- `create_buckets`: first-fit assignment, the first element seeding the
first bucket. -/
def create_buckets (blocks : List Blk) (thresholds : Option Thresholds) :
    List (List Blk) :=
  match blocks with
  | [] => []
  | b :: rest => rest.foldl (fun bs x => addToBuckets thresholds x bs) [[b]]

/-- A vertical bucket record (`bucket_info` of `process_page_buckets`): a
Block of the spec. -/
structure VBucket where
  bucket_id : ℤ
  num_blocks : ℤ
  start_x : ℤ
  end_x : ℤ
  start_y : ℤ
  end_y : ℤ
  mid_y : ℚ
  mid_x : ℚ
  min_mid_y : ℚ
  min_mid_y_x : ℚ
  width : ℤ
  height : ℤ
  blocks : List Blk
deriving DecidableEq

instance : Inhabited VBucket :=
  ⟨{ bucket_id := 0, num_blocks := 0, start_x := 0, end_x := 0, start_y := 0,
     end_y := 0, mid_y := 0, mid_x := 0, min_mid_y := 0, min_mid_y_x := 0,
     width := 0, height := 0, blocks := [] }⟩

/-- The `bucket_info` statistics record of `process_page_buckets`. -/
def mkVBucket (idx : ℕ) (bucket : List Blk) : VBucket :=
  let sx := listMinZ (bucket.map (fun b => b.start_x))
  let ex := listMaxZ (bucket.map (fun b => b.end_x))
  let sy := listMinZ (bucket.map (fun b => b.start_y))
  let ey := listMaxZ (bucket.map (fun b => b.end_y))
  { bucket_id := (idx : ℤ), num_blocks := (bucket.length : ℤ),
    start_x := sx, end_x := ex, start_y := sy, end_y := ey,
    mid_x := ((sx : ℚ) + (ex : ℚ)) / 2, mid_y := ((sy : ℚ) + (ey : ℚ)) / 2,
    min_mid_y := listMinQ (bucket.map (fun b => (b.mid_y : ℚ))),
    min_mid_y_x := listMinQ (bucket.map (fun b => b.mid_y_x)),
    width := ex - sx, height := ey - sy, blocks := bucket }

/-- Ascending `min_mid_y_x` comparison for vertical buckets. -/
def vbKeyLe (a b : VBucket) : Bool := a.min_mid_y_x ≤ b.min_mid_y_x

/-- `process_page_buckets` (statistics and ordering part): sort the blocks by
`mid_y_x`, build first-fit buckets, wrap each in its statistics record and
sort the buckets by `min_mid_y_x`. -/
def process_page_buckets (blocks : List Blk) (thresholds : Option Thresholds) :
    List VBucket :=
  pySorted vbKeyLe
    ((create_buckets (pySorted blkKeyLe blocks) thresholds).mapIdx
      (fun idx bucket => mkVBucket idx bucket))

/-! ## Stage 8: horizontal buckets (`stage_8_horizontal_buckets.py`) -/

/-- `calculate_avg_block_height`: mean block height of a vertical bucket,
`50` for an empty one. -/
def calculate_avg_block_height (vb : VBucket) : ℚ :=
  if vb.blocks.isEmpty then 50
  else ((vb.blocks.map (fun b => (b.height : ℚ))).sum) / (vb.blocks.length : ℚ)

/-- `calculate_avg_char_width`: mean character width of a vertical bucket,
`20` for an empty one; `block.get('character_width', 20)` is modelled as
`Option.getD · 20`. -/
def calculate_avg_char_width (vb : VBucket) : ℚ :=
  if vb.blocks.isEmpty then 20
  else ((vb.blocks.map (fun b => ((b.character_width.getD 20 : ℤ) : ℚ))).sum) /
    (vb.blocks.length : ℚ)

/-- `should_add_to_horizontal_bucket`: against the last vertical bucket of
the horizontal bucket, the vertical gap `current.start_y - ref.end_y` must be
strictly below the average of the two average block heights, and then one of
the three alignment tests (`start_x`, `mid_x`, `end_x`, each strictly within
the average of the two average character widths) must pass. -/
def should_add_to_horizontal_bucket (horizontal_bucket : List VBucket)
    (current_vb : VBucket) : Bool :=
  let ref_vb := horizontal_bucket.getLastD default
  let height_threshold : ℚ :=
    (calculate_avg_block_height ref_vb + calculate_avg_block_height current_vb) / 2
  let vertical_gap : ℤ := current_vb.start_y - ref_vb.end_y
  if height_threshold ≤ (vertical_gap : ℚ) then false
  else
    let char_width_threshold : ℚ :=
      (calculate_avg_char_width ref_vb + calculate_avg_char_width current_vb) / 2
    if ((|current_vb.start_x - ref_vb.start_x| : ℤ) : ℚ) < char_width_threshold then true
    else if |current_vb.mid_x - ref_vb.mid_x| < char_width_threshold then true
    else if ((|current_vb.end_x - ref_vb.end_x| : ℤ) : ℚ) < char_width_threshold then true
    else false

/-- The inner loop of `create_horizontal_buckets`: first-fit insertion. -/
def addToHBuckets (x : VBucket) : List (List VBucket) → List (List VBucket)
  | [] => [[x]]
  | hb :: rest =>
    if should_add_to_horizontal_bucket hb x then (hb ++ [x]) :: rest
    else hb :: addToHBuckets x rest

/-- `create_horizontal_buckets`: first-fit assignment of vertical buckets. -/
def create_horizontal_buckets (vertical_buckets : List VBucket) :
    List (List VBucket) :=
  match vertical_buckets with
  | [] => []
  | v :: rest => rest.foldl (fun hbs x => addToHBuckets x hbs) [[v]]

/-- A horizontal bucket record (`bucket_info` of
`process_page_horizontal_buckets`): a Segment of the spec.  The four
normalized edges are written by `normalize_bucket_coordinates` (they are
absent before that; modelled as initially `0`). -/
structure HBucket where
  horizontal_bucket_id : ℤ
  num_vertical_buckets : ℤ
  num_text_blocks : ℤ
  start_x : ℤ
  end_x : ℤ
  start_y : ℤ
  end_y : ℤ
  mid_x : ℚ
  mid_y : ℚ
  min_mid_y_x : ℚ
  width : ℤ
  height : ℤ
  vertical_buckets : List VBucket
  left_edge : ℤ
  right_edge : ℤ
  top_edge : ℤ
  bottom_edge : ℤ
deriving DecidableEq

instance : Inhabited HBucket :=
  ⟨{ horizontal_bucket_id := 0, num_vertical_buckets := 0, num_text_blocks := 0,
     start_x := 0, end_x := 0, start_y := 0, end_y := 0, mid_x := 0, mid_y := 0,
     min_mid_y_x := 0, width := 0, height := 0, vertical_buckets := [],
     left_edge := 0, right_edge := 0, top_edge := 0, bottom_edge := 0 }⟩

/-- The statistics record of `process_page_horizontal_buckets`. -/
def mkHBucket (idx : ℕ) (h_bucket : List VBucket) : HBucket :=
  let sx := listMinZ (h_bucket.map (fun vb => vb.start_x))
  let ex := listMaxZ (h_bucket.map (fun vb => vb.end_x))
  let sy := listMinZ (h_bucket.map (fun vb => vb.start_y))
  let ey := listMaxZ (h_bucket.map (fun vb => vb.end_y))
  { horizontal_bucket_id := (idx : ℤ),
    num_vertical_buckets := (h_bucket.length : ℤ),
    num_text_blocks := (h_bucket.map (fun vb => vb.num_blocks)).sum,
    start_x := sx, end_x := ex, start_y := sy, end_y := ey,
    mid_x := ((sx : ℚ) + (ex : ℚ)) / 2, mid_y := ((sy : ℚ) + (ey : ℚ)) / 2,
    min_mid_y_x := listMinQ (h_bucket.map (fun vb => vb.min_mid_y_x)),
    width := ex - sx, height := ey - sy, vertical_buckets := h_bucket,
    left_edge := 0, right_edge := 0, top_edge := 0, bottom_edge := 0 }

/-- `normalize_bucket_coordinates`: write the four normalized edges,
`round(coordinate / page dimension * 100)`, zero page dimensions replaced by
the 2550 by 3300 defaults. -/
def normalize_bucket_coordinates (bucket_data : List HBucket)
    (page_width page_height : ℤ) : List HBucket :=
  let pw : ℤ := if page_width = 0 then 2550 else page_width
  let ph : ℤ := if page_height = 0 then 3300 else page_height
  bucket_data.map fun bucket =>
    { bucket with
        left_edge := pyRound ((bucket.start_x : ℚ) / (pw : ℚ) * 100),
        right_edge := pyRound ((bucket.end_x : ℚ) / (pw : ℚ) * 100),
        top_edge := pyRound ((bucket.start_y : ℚ) / (ph : ℚ) * 100),
        bottom_edge := pyRound ((bucket.end_y : ℚ) / (ph : ℚ) * 100) }

/-- Ascending `min_mid_y_x` comparison for horizontal buckets. -/
def hbKeyLe (a b : HBucket) : Bool := a.min_mid_y_x ≤ b.min_mid_y_x

/-- `process_page_horizontal_buckets` (statistics, ordering, normalization):
first-fit horizontal buckets, statistics records, sort by `min_mid_y_x`,
normalize against the default 2550 by 3300 reference page. -/
def process_page_horizontal_buckets (vertical_buckets : List VBucket) :
    List HBucket :=
  normalize_bucket_coordinates
    (pySorted hbKeyLe
      ((create_horizontal_buckets vertical_buckets).mapIdx
        (fun idx hb => mkHBucket idx hb)))
    2550 3300

/-! ## Stage 9: vertical column stacking (`stage_9_vertical_stacking.py`) -/

/-- `is_vertically_aligned` with the default 3 percent threshold: left or
right normalized edges within 3. -/
def is_vertically_aligned (ref_bucket current_bucket : HBucket) : Bool :=
  |current_bucket.left_edge - ref_bucket.left_edge| ≤ 3 ||
    |current_bucket.right_edge - ref_bucket.right_edge| ≤ 3

/-- `is_vertically_close` with the default 3 percent threshold: the signed
vertical gap `current.top_edge - ref.bottom_edge` is at most 3 (no lower
bound). -/
def is_vertically_close (ref_bucket current_bucket : HBucket) : Bool :=
  current_bucket.top_edge - ref_bucket.bottom_edge ≤ 3

/-- The splice of `vertical_column_stack_sort`: remove the bucket at
`current_index` and reinsert it immediately after `ref_index`. -/
def moveAfter (buckets : List HBucket) (ref_index current_index : ℕ) : List HBucket :=
  (buckets.eraseIdx current_index).insertIdx (ref_index + 1)
    (buckets.getD current_index default)

/-- The double loop of `vertical_column_stack_sort` as a step function on
`(list, ref_index, current_index)`: on a match splice the current bucket
after the reference, advance the reference to the moved bucket and restart
the scan after it; otherwise advance the scan; when the scan is exhausted,
advance the reference. -/
def stackLoop (buckets : List HBucket) (ref_index current_index : ℕ) : List HBucket :=
  if href : ref_index < buckets.length then
    if hcur : current_index < buckets.length then
      if is_vertically_aligned (buckets.getD ref_index default)
            (buckets.getD current_index default) &&
          is_vertically_close (buckets.getD ref_index default)
            (buckets.getD current_index default) then
        stackLoop (moveAfter buckets ref_index current_index)
          (ref_index + 1) (ref_index + 2)
      else
        stackLoop buckets ref_index (current_index + 1)
    else
      stackLoop buckets (ref_index + 1) (ref_index + 2)
  else buckets
termination_by (buckets.length + 1 - ref_index, buckets.length + 1 - current_index)
decreasing_by
  · have h1 : ((buckets.eraseIdx current_index).insertIdx (ref_index + 1)
        (buckets.getD current_index default)).length ≤ buckets.length := by
      have he : (buckets.eraseIdx current_index).length = buckets.length - 1 := by
        rw [List.length_eraseIdx]; simp [hcur]
      by_cases hle : ref_index + 1 ≤ (buckets.eraseIdx current_index).length
      · rw [List.length_insertIdx _ _ hle]; omega
      · have : ((buckets.eraseIdx current_index).insertIdx (ref_index + 1)
            (buckets.getD current_index default)) = buckets.eraseIdx current_index := by
          apply List.insertIdx_of_length_lt
          omega
        rw [this]; omega
    simp only [moveAfter]
    apply Prod.Lex.left
    omega
  · apply Prod.Lex.right
    omega
  · apply Prod.Lex.left
    omega

/-- `vertical_column_stack_sort`. -/
def vertical_column_stack_sort (horizontal_buckets : List HBucket) : List HBucket :=
  stackLoop horizontal_buckets 0 1

/-- `process_page` of stage 9: run the stacking sort and renumber
`horizontal_bucket_id` to 0..N-1 in the final order. -/
def process_page_stage9 (horizontal_buckets : List HBucket) : List HBucket :=
  (vertical_column_stack_sort horizontal_buckets).mapIdx
    (fun idx bucket => { bucket with horizontal_bucket_id := (idx : ℤ) })

/-! ## The per-page pipeline, stages 4 through 9 composed. -/

/-- One page through the core pipeline: assemble and filter the quadrant
fragments (stage 4), compute block metrics (stage 5; the adaptive-threshold
record is a parameter), merge lines (stage 6), build vertical buckets
(stage 7), build and normalize horizontal buckets (stage 8), and reorder by
column stacking (stage 9). -/
def pipeline_page (raw_blocks : List Blk) (min_confidence : ℚ)
    (thresholds : Option Thresholds) : List HBucket :=
  process_page_stage9
    (process_page_horizontal_buckets
      (process_page_buckets
        (merge_horizontal_for_page
          (calculate_block_metrics (merge_page_quadrants raw_blocks min_confidence))
          thresholds)
        thresholds))

/-! ## Character-multiset bookkeeping (for text conservation) -/

/-- The sum of a character-multiset weight over a list. -/
def wsum {α : Type} (w : α → Multiset Char) (l : List α) : Multiset Char :=
  (l.map w).sum

theorem wsum_nil {α : Type} (w : α → Multiset Char) : wsum w ([] : List α) = 0 := rfl

theorem wsum_cons {α : Type} (w : α → Multiset Char) (x : α) (l : List α) :
    wsum w (x :: l) = w x + wsum w l := by
  simp [wsum]

theorem wsum_append {α : Type} (w : α → Multiset Char) (l₁ l₂ : List α) :
    wsum w (l₁ ++ l₂) = wsum w l₁ + wsum w l₂ := by
  simp [wsum]

theorem wsum_perm {α : Type} (w : α → Multiset Char) {l₁ l₂ : List α}
    (h : l₁.Perm l₂) : wsum w l₁ = wsum w l₂ :=
  (h.map w).sum_eq

theorem wsum_map {α β : Type} (w : β → Multiset Char) (f : α → β) (l : List α) :
    wsum w (l.map f) = wsum (fun a => w (f a)) l := by
  simp [wsum, List.map_map]; rfl

theorem wsum_congr {α : Type} {w w' : α → Multiset Char} (h : ∀ a, w a = w' a)
    (l : List α) : wsum w l = wsum w' l := by
  induction l with
  | nil => rfl
  | cons x xs ih => simp [wsum_cons, h, ih]

theorem wsum_eraseIdx {α : Type} (w : α → Multiset Char) (l : List α) (j : ℕ)
    (hj : j < l.length) :
    wsum w l = wsum w (l.eraseIdx j) + w (l[j]) := by
  induction l generalizing j with
  | nil => simp at hj
  | cons x xs ih =>
    cases j with
    | zero => simp [wsum_cons, add_comm]
    | succ j =>
      simp only [List.length_cons] at hj
      have hj' : j < xs.length := by omega
      simp only [List.eraseIdx_cons_succ, wsum_cons, List.getElem_cons_succ]
      rw [ih j hj', add_assoc]

theorem wsum_set {α : Type} (w : α → Multiset Char) (l : List α) (i : ℕ) (m : α)
    (hi : i < l.length) :
    wsum w (l.set i m) + w (l[i]) = wsum w l + w m := by
  induction l generalizing i with
  | nil => simp at hi
  | cons x xs ih =>
    cases i with
    | zero =>
      simp only [List.set_cons_zero, wsum_cons, List.getElem_cons_zero]
      abel
    | succ i =>
      simp only [List.length_cons] at hi
      have hi' : i < xs.length := by omega
      simp only [List.set_cons_succ, wsum_cons, List.getElem_cons_succ]
      rw [add_assoc, add_assoc, ih i hi']

theorem wsum_insertIdx {α : Type} (w : α → Multiset Char) (l : List α) (n : ℕ)
    (a : α) (hn : n ≤ l.length) :
    wsum w (l.insertIdx n a) = wsum w l + w a := by
  induction l generalizing n with
  | nil =>
    simp only [List.length_nil, Nat.le_zero] at hn
    subst hn
    simp [List.insertIdx_zero, wsum_cons, wsum_nil, add_comm]
  | cons x xs ih =>
    cases n with
    | zero => simp [List.insertIdx_zero, wsum_cons]; abel
    | succ n =>
      simp only [List.length_cons] at hn
      simp only [List.insertIdx_succ_cons, wsum_cons]
      rw [ih n (by omega), add_assoc]

theorem wsum_mapIdx {α β : Type} (w : β → Multiset Char) (w' : α → Multiset Char)
    (f : ℕ → α → β) (l : List α) (hf : ∀ i a, w (f i a) = w' a) :
    wsum w (l.mapIdx f) = wsum w' l := by
  induction l generalizing f with
  | nil => rfl
  | cons x xs ih =>
    simp only [List.mapIdx_cons, wsum_cons, hf]
    rw [ih (fun i => f (i + 1)) (fun i a => hf (i + 1) a)]

theorem wsum_insertStable {α : Type} (w : α → Multiset Char) (le : α → α → Bool)
    (x : α) (l : List α) : wsum w (insertStable le x l) = w x + wsum w l := by
  induction l with
  | nil => rfl
  | cons y ys ih =>
    unfold insertStable
    by_cases h : le x y
    · rw [if_pos h, wsum_cons]
    · rw [if_neg h, wsum_cons, ih, wsum_cons]
      abel

theorem wsum_pySorted {α : Type} (w : α → Multiset Char) (le : α → α → Bool)
    (l : List α) : wsum w (pySorted le l) = wsum w l := by
  induction l with
  | nil => rfl
  | cons x xs ih =>
    unfold pySorted
    rw [wsum_insertStable, ih, wsum_cons]

/-- Character multiset of one block's text. -/
def blkTextM (b : Blk) : Multiset Char := (b.text.toList : Multiset Char)

/-- Character multiset of a block list. -/
def blkChars (l : List Blk) : Multiset Char := wsum blkTextM l

/-- Character multiset of a list of stage-7 buckets. -/
def bucketsChars (bs : List (List Blk)) : Multiset Char :=
  wsum (fun b => blkChars b) bs

/-- Character multiset of a vertical-bucket list. -/
def vbChars (vbs : List VBucket) : Multiset Char :=
  wsum (fun vb => blkChars vb.blocks) vbs

/-- Character multiset of a list of stage-8 buckets. -/
def hbGroupsChars (hbs : List (List VBucket)) : Multiset Char :=
  wsum (fun hb => vbChars hb) hbs

/-- Character multiset of a horizontal-bucket (Segment) list. -/
def hbsChars (hbs : List HBucket) : Multiset Char :=
  wsum (fun hb => vbChars hb.vertical_buckets) hbs

theorem merge_two_blocks_chars (b1 b2 : Blk) :
    blkTextM (merge_two_blocks b1 b2) = blkTextM b1 + blkTextM b2 + {' '} := by
  unfold merge_two_blocks blkTextM
  have happ : ∀ s t : String, (s ++ t).toList = s.toList ++ t.toList :=
    fun s t => String.data_append s t
  have hsp : ((" ".toList : List Char) : Multiset Char) = {' '} := rfl
  by_cases h : b1.start_x ≤ b2.start_x
  · simp only [if_pos h]
    rw [happ, happ, ← Multiset.coe_add, ← Multiset.coe_add, hsp]
    abel
  · simp only [if_neg h]
    rw [happ, happ, ← Multiset.coe_add, ← Multiset.coe_add, hsp]
    abel

theorem mergeAt_chars {l : List Blk} {i j : ℕ} (hij : i < j) (hj : j < l.length) :
    blkChars (mergeAt l i j) = blkChars l + {' '} := by
  have hi : i < l.length := lt_trans hij hj
  have hgi : l.getD i default = l[i] := List.getD_eq_getElem l default hi
  have hgj : l.getD j default = l[j] := List.getD_eq_getElem l default hj
  have hjset : j < (l.set i (merge_two_blocks l[i] l[j])).length := by
    rw [List.length_set]; exact hj
  have hset : (l.set i (merge_two_blocks l[i] l[j]))[j] = l[j] :=
    List.getElem_set_ne (by omega) hjset
  have h2 := wsum_eraseIdx blkTextM (l.set i (merge_two_blocks l[i] l[j])) j hjset
  have h1 := wsum_set blkTextM l i (merge_two_blocks l[i] l[j]) hi
  unfold mergeAt blkChars
  rw [hgi, hgj]
  rw [hset] at h2
  have hm := merge_two_blocks_chars l[i] l[j]
  have key : wsum blkTextM ((l.set i (merge_two_blocks l[i] l[j])).eraseIdx j) +
      blkTextM l[i] + blkTextM l[j] =
      (wsum blkTextM l + {' '}) + blkTextM l[i] + blkTextM l[j] := by
    calc wsum blkTextM ((l.set i (merge_two_blocks l[i] l[j])).eraseIdx j) +
          blkTextM l[i] + blkTextM l[j]
        = (wsum blkTextM ((l.set i (merge_two_blocks l[i] l[j])).eraseIdx j) +
            blkTextM l[j]) + blkTextM l[i] := by abel
      _ = wsum blkTextM (l.set i (merge_two_blocks l[i] l[j])) + blkTextM l[i] := by
            rw [← h2]
      _ = wsum blkTextM l + blkTextM (merge_two_blocks l[i] l[j]) := h1
      _ = wsum blkTextM l + (blkTextM l[i] + blkTextM l[j] + {' '}) := by rw [hm]
      _ = (wsum blkTextM l + {' '}) + blkTextM l[i] + blkTextM l[j] := by abel
  exact add_right_cancel (add_right_cancel key)

theorem mergeLoop_eq_of_some {thr : Option Thresholds} {l : List Blk} {i j : ℕ}
    (h : i < l.length) (hj : findMergeIdx thr l i = some j) :
    mergeLoop thr l i = mergeLoop thr (mergeAt l i j) i := by
  rw [mergeLoop, dif_pos h]
  split
  · next j' heq =>
    rw [hj] at heq
    injection heq with h2
    rw [h2]
  · next heq =>
    rw [hj] at heq
    exact absurd heq (by simp)

theorem mergeLoop_eq_of_none {thr : Option Thresholds} {l : List Blk} {i : ℕ}
    (h : i < l.length) (hj : findMergeIdx thr l i = none) :
    mergeLoop thr l i = mergeLoop thr l (i + 1) := by
  rw [mergeLoop, dif_pos h]
  split
  · next j' heq =>
    rw [hj] at heq
    exact absurd heq (by simp)
  · next heq => rfl

theorem mergeLoop_eq_of_ge {thr : Option Thresholds} {l : List Blk} {i : ℕ}
    (h : ¬ i < l.length) : mergeLoop thr l i = l := by
  rw [mergeLoop, dif_neg h]

theorem mergeLoop_length_le (thr : Option Thresholds) (l : List Blk) (i : ℕ) :
    (mergeLoop thr l i).length ≤ l.length := by
  induction l, i using mergeLoop.induct thr with
  | case1 l i h j hj ih =>
    rw [mergeLoop_eq_of_some h hj]
    have hb := findMergeIdx_bounds hj
    have hlen := @mergeAt_length l i j hb.2
    omega
  | case2 l i h hj ih =>
    rw [mergeLoop_eq_of_none h hj]
    exact ih
  | case3 l i h =>
    rw [mergeLoop_eq_of_ge h]

theorem mergeLoop_chars (thr : Option Thresholds) (l : List Blk) (i : ℕ) :
    blkChars (mergeLoop thr l i) =
      blkChars l + Multiset.replicate (l.length - (mergeLoop thr l i).length) ' ' := by
  induction l, i using mergeLoop.induct thr with
  | case1 l i h j hj ih =>
    have hb := findMergeIdx_bounds hj
    have hlen := @mergeAt_length l i j hb.2
    have hle := mergeLoop_length_le thr (mergeAt l i j) i
    rw [mergeLoop_eq_of_some h hj, ih, mergeAt_chars hb.1 hb.2]
    have hsucc : l.length - (mergeLoop thr (mergeAt l i j) i).length =
        ((mergeAt l i j).length - (mergeLoop thr (mergeAt l i j) i).length) + 1 := by
      omega
    rw [hsucc, Multiset.replicate_succ, ← Multiset.singleton_add]
    abel
  | case2 l i h hj ih =>
    rw [mergeLoop_eq_of_none h hj]
    exact ih
  | case3 l i h =>
    rw [mergeLoop_eq_of_ge h]
    simp

theorem mergeLoop_fix (thr : Option Thresholds) (l : List Blk) (i : ℕ)
    (h : (mergeLoop thr l i).length = l.length) : mergeLoop thr l i = l := by
  induction l, i using mergeLoop.induct thr with
  | case1 l i hlt j hj ih =>
    exfalso
    have hb := findMergeIdx_bounds hj
    have hlen := @mergeAt_length l i j hb.2
    have hle := mergeLoop_length_le thr (mergeAt l i j) i
    rw [mergeLoop_eq_of_some hlt hj] at h
    omega
  | case2 l i hlt hj ih =>
    rw [mergeLoop_eq_of_none hlt hj] at h ⊢
    exact ih h
  | case3 l i hlt =>
    rw [mergeLoop_eq_of_ge hlt]

theorem merge_blocks_recursive_length_le (blocks : List Blk) (thr : Option Thresholds) :
    (merge_blocks_recursive blocks thr).length ≤ blocks.length := by
  unfold merge_blocks_recursive
  by_cases h : blocks.length < 2
  · simp [h]
  · simp only [h, ite_false, if_false]
    exact mergeLoop_length_le thr blocks 0

theorem merge_blocks_recursive_chars (blocks : List Blk) (thr : Option Thresholds) :
    blkChars (merge_blocks_recursive blocks thr) =
      blkChars blocks +
        Multiset.replicate (blocks.length - (merge_blocks_recursive blocks thr).length) ' ' := by
  unfold merge_blocks_recursive
  by_cases h : blocks.length < 2
  · simp [h]
  · simp only [h, ite_false, if_false]
    exact mergeLoop_chars thr blocks 0

theorem merge_blocks_recursive_fix (blocks : List Blk) (thr : Option Thresholds)
    (h : (merge_blocks_recursive blocks thr).length = blocks.length) :
    merge_blocks_recursive blocks thr = blocks := by
  unfold merge_blocks_recursive at h ⊢
  by_cases hlen : blocks.length < 2
  · simp [hlen]
  · simp only [hlen, ite_false, if_false] at h ⊢
    exact mergeLoop_fix thr blocks 0 h

theorem blkChars_map_of_text {f : Blk → Blk} (hf : ∀ b, (f b).text = b.text)
    (l : List Blk) : blkChars (l.map f) = blkChars l := by
  unfold blkChars
  rw [wsum_map]
  exact wsum_congr (fun a => by simp [blkTextM, hf]) l

theorem relateChain_chars (p : Blk) (l : List Blk) :
    blkChars (relateChain p l) = blkChars l := by
  induction l generalizing p with
  | nil => rfl
  | cons x xs ih =>
    unfold relateChain blkChars
    rw [wsum_cons, wsum_cons]
    show blkTextM (relate p x) + wsum blkTextM (relateChain (relate p x) xs) = _
    rw [show blkTextM (relate p x) = blkTextM x from by simp [blkTextM, relate]]
    exact congrArg (fun m => blkTextM x + m) (ih (relate p x))

theorem relateChain_length (p : Blk) (l : List Blk) :
    (relateChain p l).length = l.length := by
  induction l generalizing p with
  | nil => rfl
  | cons x xs ih => simp [relateChain, ih]

theorem calculate_block_metrics_chars (blocks : List Blk) :
    blkChars (calculate_block_metrics blocks) = blkChars blocks := by
  unfold calculate_block_metrics
  cases blocks with
  | nil => rfl
  | cons b rest =>
    simp only [List.map_cons]
    unfold blkChars
    rw [wsum_cons]
    rw [show wsum blkTextM (relateChain (clearPrev (metricize b)) (rest.map metricize)) =
          blkChars (rest.map metricize) from relateChain_chars _ _]
    rw [show blkTextM (clearPrev (metricize b)) = blkTextM b from by
          simp [blkTextM, clearPrev, metricize]]
    rw [show blkChars (rest.map metricize) = blkChars rest from
          blkChars_map_of_text (fun b => by simp [metricize]) rest]
    rfl

theorem calculate_block_metrics_length (blocks : List Blk) :
    (calculate_block_metrics blocks).length = blocks.length := by
  unfold calculate_block_metrics
  cases blocks with
  | nil => rfl
  | cons b rest =>
    simp [relateChain_length]

theorem merge_page_quadrants_chars (raw : List Blk) (c : ℚ) :
    blkChars (merge_page_quadrants raw c) = blkChars (confFilter raw c) := by
  unfold merge_page_quadrants scale_coordinates_to_original
  rw [blkChars_map_of_text (fun b => by simp [scale_block]) _]
  exact wsum_pySorted blkTextM blkKeyLe (confFilter raw c)

theorem merge_page_quadrants_length (raw : List Blk) (c : ℚ) :
    (merge_page_quadrants raw c).length = (confFilter raw c).length := by
  unfold merge_page_quadrants scale_coordinates_to_original
  simp [length_pySorted]

theorem merge_horizontal_for_page_length_le (blocks : List Blk) (thr : Option Thresholds) :
    (merge_horizontal_for_page blocks thr).length ≤ blocks.length := by
  unfold merge_horizontal_for_page
  rw [calculate_block_metrics_length, length_pySorted]
  calc (merge_blocks_recursive (pySorted blkKeyLe blocks) thr).length
      ≤ (pySorted blkKeyLe blocks).length := merge_blocks_recursive_length_le _ _
    _ = blocks.length := length_pySorted blkKeyLe blocks

theorem blkChars_perm {l₁ l₂ : List Blk} (h : l₁.Perm l₂) : blkChars l₁ = blkChars l₂ :=
  wsum_perm blkTextM h

theorem merge_horizontal_for_page_chars (blocks : List Blk) (thr : Option Thresholds) :
    blkChars (merge_horizontal_for_page blocks thr) =
      blkChars blocks +
        Multiset.replicate (blocks.length - (merge_horizontal_for_page blocks thr).length) ' ' := by
  unfold merge_horizontal_for_page
  rw [calculate_block_metrics_chars]
  rw [show blkChars (pySorted blkKeyLe
        (merge_blocks_recursive (pySorted blkKeyLe blocks) thr)) =
      wsum blkTextM (pySorted blkKeyLe
        (merge_blocks_recursive (pySorted blkKeyLe blocks) thr)) from rfl]
  rw [wsum_pySorted]
  rw [calculate_block_metrics_length, length_pySorted]
  rw [show wsum blkTextM (merge_blocks_recursive (pySorted blkKeyLe blocks) thr) =
      blkChars (merge_blocks_recursive (pySorted blkKeyLe blocks) thr) from rfl]
  rw [merge_blocks_recursive_chars (pySorted blkKeyLe blocks) thr]
  rw [show blkChars (pySorted blkKeyLe blocks) =
      wsum blkTextM (pySorted blkKeyLe blocks) from rfl]
  rw [wsum_pySorted, length_pySorted]
  rfl

theorem addToBuckets_chars (thr : Option Thresholds) (x : Blk) (bs : List (List Blk)) :
    bucketsChars (addToBuckets thr x bs) = bucketsChars bs + blkTextM x := by
  induction bs with
  | nil =>
    unfold addToBuckets bucketsChars
    simp [wsum_cons, wsum_nil, blkChars, blkTextM]
  | cons b rest ih =>
    unfold addToBuckets
    by_cases h : should_add_to_bucket (b.getLastD default) x thr
    · rw [if_pos h]
      unfold bucketsChars
      rw [wsum_cons, wsum_cons]
      rw [show blkChars (b ++ [x]) = blkChars b + blkTextM x from by
            unfold blkChars; rw [wsum_append]; simp [wsum_cons, wsum_nil]]
      abel
    · rw [if_neg h]
      unfold bucketsChars
      rw [wsum_cons, wsum_cons]
      rw [show wsum (fun b => blkChars b) (addToBuckets thr x rest) =
            bucketsChars rest + blkTextM x from ih]
      unfold bucketsChars
      abel

theorem create_buckets_chars (blocks : List Blk) (thr : Option Thresholds) :
    bucketsChars (create_buckets blocks thr) = blkChars blocks := by
  unfold create_buckets
  cases blocks with
  | nil => rfl
  | cons b rest =>
    suffices h : ∀ (xs : List Blk) (init : List (List Blk)),
        bucketsChars (xs.foldl (fun bs x => addToBuckets thr x bs) init) =
          bucketsChars init + blkChars xs by
      rw [h rest [[b]]]
      show bucketsChars [[b]] + blkChars rest = blkChars (b :: rest)
      unfold bucketsChars blkChars
      rw [wsum_cons, wsum_nil, wsum_cons]
      show (wsum blkTextM [b] + 0) + _ = _
      rw [wsum_cons, wsum_nil, wsum_cons]
      abel
    intro xs
    induction xs with
    | nil =>
      intro init
      show bucketsChars init = bucketsChars init + blkChars []
      rw [show blkChars [] = 0 from rfl, add_zero]
    | cons y ys ih =>
      intro init
      simp only [List.foldl_cons]
      rw [ih (addToBuckets thr y init), addToBuckets_chars]
      unfold blkChars
      rw [wsum_cons]
      show bucketsChars init + blkTextM y + wsum blkTextM ys = _
      abel

theorem process_page_buckets_chars (blocks : List Blk) (thr : Option Thresholds) :
    vbChars (process_page_buckets blocks thr) = blkChars blocks := by
  unfold process_page_buckets vbChars
  rw [wsum_pySorted]
  rw [wsum_mapIdx (fun vb : VBucket => blkChars vb.blocks)
      (fun b : List Blk => blkChars b)
      (fun idx bucket => mkVBucket idx bucket) _ (fun i a => rfl)]
  rw [show wsum (fun b : List Blk => blkChars b)
        (create_buckets (pySorted blkKeyLe blocks) thr) =
      bucketsChars (create_buckets (pySorted blkKeyLe blocks) thr) from rfl]
  rw [create_buckets_chars]
  exact wsum_pySorted blkTextM blkKeyLe blocks

theorem addToHBuckets_chars (x : VBucket) (hbs : List (List VBucket)) :
    hbGroupsChars (addToHBuckets x hbs) =
      hbGroupsChars hbs + blkChars x.blocks := by
  induction hbs with
  | nil =>
    unfold addToHBuckets hbGroupsChars vbChars
    simp [wsum_cons, wsum_nil]
  | cons hb rest ih =>
    unfold addToHBuckets
    by_cases h : should_add_to_horizontal_bucket hb x
    · rw [if_pos h]
      unfold hbGroupsChars vbChars
      rw [wsum_cons, wsum_cons, wsum_append]
      simp only [wsum_cons, wsum_nil]
      abel
    · rw [if_neg h]
      unfold hbGroupsChars
      rw [wsum_cons, wsum_cons]
      rw [show wsum (fun hb => vbChars hb) (addToHBuckets x rest) =
            hbGroupsChars (addToHBuckets x rest) from rfl, ih]
      unfold hbGroupsChars
      abel

theorem create_horizontal_buckets_chars (vbs : List VBucket) :
    hbGroupsChars (create_horizontal_buckets vbs) = vbChars vbs := by
  unfold create_horizontal_buckets
  cases vbs with
  | nil => rfl
  | cons v rest =>
    suffices h : ∀ (xs : List VBucket) (init : List (List VBucket)),
        hbGroupsChars (xs.foldl (fun hbs x => addToHBuckets x hbs) init) =
          hbGroupsChars init + vbChars xs by
      rw [h rest [[v]]]
      unfold hbGroupsChars vbChars
      simp only [wsum_cons, wsum_nil, add_zero, zero_add]
    intro xs
    induction xs with
    | nil =>
      intro init
      show hbGroupsChars init = hbGroupsChars init + vbChars []
      rw [show vbChars [] = 0 from rfl, add_zero]
    | cons y ys ih =>
      intro init
      simp only [List.foldl_cons]
      rw [ih (addToHBuckets y init), addToHBuckets_chars]
      unfold vbChars
      rw [wsum_cons]
      show hbGroupsChars init + blkChars y.blocks + wsum _ ys = _
      abel

theorem process_page_horizontal_buckets_chars (vbs : List VBucket) :
    hbsChars (process_page_horizontal_buckets vbs) = vbChars vbs := by
  unfold process_page_horizontal_buckets normalize_bucket_coordinates hbsChars
  rw [wsum_map]
  rw [@wsum_congr HBucket _ (fun hb : HBucket => vbChars hb.vertical_buckets) (fun a => rfl) _]
  rw [wsum_pySorted]
  rw [wsum_mapIdx (fun hb : HBucket => vbChars hb.vertical_buckets)
      (fun hb : List VBucket => vbChars hb)
      (fun idx hb => mkHBucket idx hb) _ (fun i a => rfl)]
  exact create_horizontal_buckets_chars vbs

theorem moveAfter_chars {l : List HBucket} {r c : ℕ} (hrc : r < c) (hc : c < l.length) :
    hbsChars (moveAfter l r c) = hbsChars l := by
  unfold moveAfter hbsChars
  have hgc : l.getD c default = l[c] := List.getD_eq_getElem l default hc
  have hel : (l.eraseIdx c).length = l.length - 1 := by
    rw [List.length_eraseIdx]; simp [hc]
  have hin : r + 1 ≤ (l.eraseIdx c).length := by omega
  rw [hgc, wsum_insertIdx _ _ _ _ hin]
  rw [← wsum_eraseIdx _ l c hc]

theorem stackLoop_chars (l : List HBucket) (r c : ℕ) (hrc : r < c) :
    hbsChars (stackLoop l r c) = hbsChars l := by
  induction l, r, c using stackLoop.induct with
  | case1 l r c href hcur hmatch ih =>
    rw [stackLoop, dif_pos href, dif_pos hcur, if_pos hmatch]
    rw [ih (by omega)]
    exact moveAfter_chars hrc hcur
  | case2 l r c href hcur hmatch ih =>
    rw [stackLoop, dif_pos href, dif_pos hcur, if_neg hmatch]
    exact ih (by omega)
  | case3 l r c href hcur ih =>
    rw [stackLoop, dif_pos href, dif_neg hcur]
    exact ih (by omega)
  | case4 l r c href =>
    rw [stackLoop, dif_neg href]

theorem process_page_stage9_chars (hbs : List HBucket) :
    hbsChars (process_page_stage9 hbs) = hbsChars hbs := by
  unfold process_page_stage9 vertical_column_stack_sort
  rw [show hbsChars ((stackLoop hbs 0 1).mapIdx
        (fun idx bucket => { bucket with horizontal_bucket_id := (idx : ℤ) })) =
      wsum (fun hb : HBucket => vbChars hb.vertical_buckets)
        ((stackLoop hbs 0 1).mapIdx
          (fun idx bucket => { bucket with horizontal_bucket_id := (idx : ℤ) })) from rfl]
  rw [wsum_mapIdx (fun hb : HBucket => vbChars hb.vertical_buckets)
      (fun hb : HBucket => vbChars hb.vertical_buckets)
      (fun idx bucket => { bucket with horizontal_bucket_id := (idx : ℤ) }) _
      (fun i a => rfl)]
  exact stackLoop_chars hbs 0 1 (by omega)

/-- C1, named pipeline pieces: the Lines produced by the Line Merger for a
page. -/
def pageLines (raw_blocks : List Blk) (min_confidence : ℚ)
    (thresholds : Option Thresholds) : List Blk :=
  merge_horizontal_for_page
    (calculate_block_metrics (merge_page_quadrants raw_blocks min_confidence))
    thresholds

/-- C1: text conservation.  For every page input, every confidence floor and
every thresholds record, the multiset of characters in the final output
Segments (stage 9 output, flattened through Blocks down to Line texts) equals
the multiset of characters of the confidence-surviving input Fragments plus
exactly one space per merge performed by the Line Merger (each merge of the
Line Merger shortens the line list by exactly one, so the number of merges is
the survivor count minus the Line count); the Block Builder, Segment Builder
and Reorderer neither drop, duplicate nor alter any text. -/
theorem C1_text_conservation (raw_blocks : List Blk) (min_confidence : ℚ)
    (thresholds : Option Thresholds) :
    (pageLines raw_blocks min_confidence thresholds).length ≤
        (confFilter raw_blocks min_confidence).length ∧
      hbsChars (pipeline_page raw_blocks min_confidence thresholds) =
        blkChars (confFilter raw_blocks min_confidence) +
          Multiset.replicate
            ((confFilter raw_blocks min_confidence).length -
              (pageLines raw_blocks min_confidence thresholds).length) ' ' := by
  constructor
  · unfold pageLines
    calc (merge_horizontal_for_page _ thresholds).length
        ≤ (calculate_block_metrics (merge_page_quadrants raw_blocks min_confidence)).length :=
          merge_horizontal_for_page_length_le _ _
      _ = (confFilter raw_blocks min_confidence).length := by
          rw [calculate_block_metrics_length, merge_page_quadrants_length]
  · unfold pipeline_page
    rw [process_page_stage9_chars, process_page_horizontal_buckets_chars,
        process_page_buckets_chars]
    rw [show merge_horizontal_for_page
          (calculate_block_metrics (merge_page_quadrants raw_blocks min_confidence))
          thresholds = pageLines raw_blocks min_confidence thresholds from rfl]
    unfold pageLines
    rw [merge_horizontal_for_page_chars]
    rw [calculate_block_metrics_chars, calculate_block_metrics_length,
        merge_page_quadrants_chars, merge_page_quadrants_length]

/-! ## Claim-side (specification) definitions and the claim theorems -/

/-- Claim C2's character width: each character width replaced by 36 when
undefined or zero (this and the next two definitions transcribe the claim's
wording, to be compared with the source-side `should_merge_blocks`). -/
def specCharWidth (b : Blk) : ℚ :=
  match b.character_width with
  | none => 36
  | some w => if w = 0 then 36 else (w : ℚ)

/-- Claim C2's horizontal gap: the right edge of the further-left box
measured against the other box's left edge. -/
def specGap (reference candidate : Blk) : ℤ :=
  if candidate.start_x < reference.start_x then reference.start_x - candidate.end_x
  else candidate.start_x - reference.end_x

/-- Claim C2's merge condition with adaptive thresholds present. -/
def C2_merge_condition (t : Thresholds) (reference candidate : Blk) : Prop :=
  ((|candidate.mid_y - reference.mid_y| : ℤ) : ℚ) < t.vertical_merge_tolerance ∧
    ((specGap reference candidate : ℤ) : ℚ) <
      3 * ((specCharWidth reference + specCharWidth candidate) / 2)

theorem charWidthOr36_cast (b : Blk) :
    ((charWidthOr 36 b : ℤ) : ℚ) = specCharWidth b := by
  unfold charWidthOr specCharWidth
  cases b.character_width with
  | none => norm_num
  | some w => by_cases hw : w = 0 <;> simp [hw]

/-- C2: with adaptive thresholds present, a pair is merged exactly when the
vertical midline distance is strictly below the vertical tolerance and the
horizontal gap is strictly below 3.0 times the average of the two character
widths (36 substituted for undefined or zero); and the merged Line has the
text of the two boxes ordered by `start_x` joined with a single space, the
union bounding box, summed `char_count` plus one, summed `word_count`, and
the maximum confidence. -/
theorem C2_merge_predicate_and_fields (t : Thresholds) (reference candidate : Blk) :
    (should_merge_blocks reference candidate (some t) = true ↔
        C2_merge_condition t reference candidate) ∧
      (merge_two_blocks reference candidate).text =
        (if reference.start_x ≤ candidate.start_x then reference else candidate).text ++
          " " ++
          (if reference.start_x ≤ candidate.start_x then candidate else reference).text ∧
      (merge_two_blocks reference candidate).start_x =
        min reference.start_x candidate.start_x ∧
      (merge_two_blocks reference candidate).end_x =
        max reference.end_x candidate.end_x ∧
      (merge_two_blocks reference candidate).start_y =
        min reference.start_y candidate.start_y ∧
      (merge_two_blocks reference candidate).end_y =
        max reference.end_y candidate.end_y ∧
      (merge_two_blocks reference candidate).char_count =
        reference.char_count + candidate.char_count + 1 ∧
      (merge_two_blocks reference candidate).word_count =
        reference.word_count + candidate.word_count ∧
      (merge_two_blocks reference candidate).confidence =
        max reference.confidence candidate.confidence := by
  refine ⟨?_, ?_, ?_, ?_, ?_, ?_, ?_, ?_, ?_⟩
  · unfold should_merge_blocks
    dsimp only
    by_cases hv : t.vertical_merge_tolerance ≤
        ((|candidate.mid_y - reference.mid_y| : ℤ) : ℚ)
    · rw [if_pos hv]
      simp only [Bool.false_eq_true, false_iff]
      intro hcl
      exact absurd hv (not_le.mpr hcl.1)
    · rw [if_neg hv, decide_eq_true_eq]
      unfold C2_merge_condition
      have hthr : ((charWidthOr 36 reference : ℤ) : ℚ) + ((charWidthOr 36 candidate : ℤ) : ℚ) =
          specCharWidth reference + specCharWidth candidate := by
        rw [charWidthOr36_cast, charWidthOr36_cast]
      constructor
      · intro hgap
        refine ⟨not_le.mp hv, ?_⟩
        unfold specGap
        rw [← hthr]
        linarith
      · rintro ⟨hvlt, hgap⟩
        unfold specGap at hgap
        rw [← hthr] at hgap
        linarith
  · unfold merge_two_blocks
    by_cases h : reference.start_x ≤ candidate.start_x <;> simp [h]
  · unfold merge_two_blocks
    by_cases h : reference.start_x ≤ candidate.start_x <;>
      simp [h, min_comm]
  · unfold merge_two_blocks
    by_cases h : reference.start_x ≤ candidate.start_x <;>
      simp [h, max_comm]
  · unfold merge_two_blocks
    by_cases h : reference.start_x ≤ candidate.start_x <;>
      simp [h, min_comm]
  · unfold merge_two_blocks
    by_cases h : reference.start_x ≤ candidate.start_x <;>
      simp [h, max_comm]
  · unfold merge_two_blocks
    by_cases h : reference.start_x ≤ candidate.start_x <;> simp [h] <;> ring
  · unfold merge_two_blocks
    by_cases h : reference.start_x ≤ candidate.start_x <;> simp [h] <;> ring
  · unfold merge_two_blocks
    by_cases h : reference.start_x ≤ candidate.start_x <;>
      simp [h, max_comm]

/-- Thresholds used by the C3 counterexample page. -/
def C3thr : Thresholds := ⟨10, 100, 70, 50⟩

/-- C3 counterexample block: a one-character block on the left of the line. -/
def C3A : Blk :=
  { text := "A", start_x := 0, end_x := 100, start_y := 45, end_y := 55,
    mid_x := 50, mid_y := 50, mid_y_x := 50, height := 10, width := 100,
    confidence := 9/10, char_count := 1, word_count := 1,
    character_width := some 100 }

/-- C3 counterexample block: a tall narrow-height block on the right. -/
def C3B : Blk :=
  { text := "B", start_x := 650, end_x := 750, start_y := 22, end_y := 82,
    mid_x := 700, mid_y := 52, mid_y_x := 65, height := 60, width := 100,
    confidence := 9/10, char_count := 1, word_count := 1,
    character_width := some 100 }

/-- C3 counterexample block: a thin block between the two, vertically offset
just beyond the tolerance from the first block. -/
def C3C : Blk :=
  { text := "C", start_x := 300, end_x := 400, start_y := 59, end_y := 61,
    mid_x := 350, mid_y := 60, mid_y_x := 66, height := 2, width := 100,
    confidence := 9/10, char_count := 1, word_count := 1,
    character_width := some 100 }

/-- The Line Merger's output on the C3 counterexample page. -/
def C3out : List Blk :=
  calculate_block_metrics (pySorted blkKeyLe (mergeAt [C3A, C3B, C3C] 1 2))

/-- C3 counterexample: on this sorted three-fragment page the merger first
merges the second and third fragments into a wider Line whose character
width grows to 150; the first output Line and that merged Line then satisfy
the merge predicate (they are adjacent, well inside the lookahead window),
and a second run of the merger does merge them: the Line Merger is not
idempotent. -/
theorem C3_counterexample :
    (merge_horizontal_for_page [C3A, C3B, C3C] (some C3thr)).length = 2 ∧
      should_merge_blocks
        ((merge_horizontal_for_page [C3A, C3B, C3C] (some C3thr)).getD 0 default)
        ((merge_horizontal_for_page [C3A, C3B, C3C] (some C3thr)).getD 1 default)
        (some C3thr) = true ∧
      (merge_horizontal_for_page
        (merge_horizontal_for_page [C3A, C3B, C3C] (some C3thr)) (some C3thr)).length = 1 := by
  have h1 : findMergeIdx (some C3thr) [C3A, C3B, C3C] 0 = none := by
    with_unfolding_all rfl
  have h2 : findMergeIdx (some C3thr) [C3A, C3B, C3C] 1 = some 2 := by
    with_unfolding_all rfl
  have h3 : findMergeIdx (some C3thr) (mergeAt [C3A, C3B, C3C] 1 2) 1 = none := by
    with_unfolding_all rfl
  have h4 : ¬ (2 < (mergeAt [C3A, C3B, C3C] 1 2).length) := by
    with_unfolding_all decide
  have e0 : mergeLoop (some C3thr) [C3A, C3B, C3C] 0 = mergeAt [C3A, C3B, C3C] 1 2 := by
    rw [mergeLoop_eq_of_none (by norm_num) h1,
        mergeLoop_eq_of_some (by norm_num) h2,
        mergeLoop_eq_of_none (by with_unfolding_all decide) h3,
        mergeLoop_eq_of_ge h4]
  have e1 : merge_horizontal_for_page [C3A, C3B, C3C] (some C3thr) = C3out := by
    unfold merge_horizontal_for_page merge_blocks_recursive C3out
    rw [show (pySorted blkKeyLe [C3A, C3B, C3C]) = [C3A, C3B, C3C] from by
          with_unfolding_all rfl]
    rw [if_neg (by norm_num), e0]
  have f1 : (pySorted blkKeyLe C3out) = C3out := by with_unfolding_all rfl
  have f2 : findMergeIdx (some C3thr) C3out 0 = some 1 := by with_unfolding_all rfl
  have f3 : findMergeIdx (some C3thr) (mergeAt C3out 0 1) 0 = none := by
    with_unfolding_all rfl
  have f4 : ¬ (1 < (mergeAt C3out 0 1).length) := by with_unfolding_all decide
  have e2 : mergeLoop (some C3thr) C3out 0 = mergeAt C3out 0 1 := by
    rw [mergeLoop_eq_of_some (by with_unfolding_all decide) f2,
        mergeLoop_eq_of_none (by with_unfolding_all decide) f3,
        mergeLoop_eq_of_ge f4]
  have e3 : merge_horizontal_for_page C3out (some C3thr) =
      calculate_block_metrics (pySorted blkKeyLe (mergeAt C3out 0 1)) := by
    unfold merge_horizontal_for_page merge_blocks_recursive
    rw [f1, if_neg (by with_unfolding_all decide), e2]
  refine ⟨?_, ?_, ?_⟩
  · rw [e1]; with_unfolding_all rfl
  · rw [e1]; with_unfolding_all rfl
  · rw [e1, e3]; with_unfolding_all rfl

/-- C3 amended: the Line Merger is idempotent exactly on the inputs where it
performs no merges (its output has the input's length); in general its
output need not be a fixed point and a second run can perform further
merges, as `C3_counterexample` shows. -/
theorem C3_merger_fixpoint_idempotent (blocks : List Blk) (thr : Option Thresholds)
    (h : (merge_blocks_recursive blocks thr).length = blocks.length) :
    merge_blocks_recursive (merge_blocks_recursive blocks thr) thr =
      merge_blocks_recursive blocks thr := by
  rw [merge_blocks_recursive_fix blocks thr h]
  exact merge_blocks_recursive_fix blocks thr h

theorem C3_merger_fixpoint_idempotent_witness :
    (merge_blocks_recursive [C3A] (some C3thr)).length = [C3A].length ∧
      merge_blocks_recursive (merge_blocks_recursive [C3A] (some C3thr)) (some C3thr) =
        merge_blocks_recursive [C3A] (some C3thr) :=
  ⟨by with_unfolding_all rfl,
   C3_merger_fixpoint_idempotent [C3A] (some C3thr) (by with_unfolding_all rfl)⟩

/-- Claim C4's membership test, transcribing the claim's wording: vertical
alignment of midlines strictly within the block vertical tolerance, and one
of the three horizontal alignment tests, with the doubled tolerance on
`start_x`. -/
def C4_membership (t : Thresholds) (lastLine line : Blk) : Prop :=
  ((|line.mid_y - lastLine.mid_y| : ℤ) : ℚ) < t.vertical_bucket_tolerance ∧
    (((|line.start_x - lastLine.start_x| : ℤ) : ℚ) < 2 * t.horizontal_bucket_tolerance ∨
      ((|line.mid_x - lastLine.mid_x| : ℤ) : ℚ) < t.horizontal_bucket_tolerance ∨
      ((|line.end_x - lastLine.end_x| : ℤ) : ℚ) < t.horizontal_bucket_tolerance)

/-- First-fit insertion as the claims describe it: the element joins the
first group, in creation order, whose last member accepts it; otherwise a
new group is opened at the end. -/
def firstFitInsert {α : Type} [Inhabited α] (accepts : α → α → Bool)
    (groups : List (List α)) (x : α) : List (List α) :=
  match groups.findIdx? (fun g => accepts (g.getLastD default) x) with
  | some k => groups.set k ((groups.getD k []) ++ [x])
  | none => groups ++ [[x]]

/-- First-fit grouping: the first element seeds the first group, each later
element is inserted first-fit. -/
def firstFitRun {α : Type} [Inhabited α] (accepts : α → α → Bool) :
    List α → List (List α)
  | [] => []
  | x :: xs => xs.foldl (firstFitInsert accepts) [[x]]

theorem firstFitInsert_cons {α : Type} [Inhabited α] (accepts : α → α → Bool)
    (b : List α) (rest : List (List α)) (x : α)
    (h : ¬ accepts (b.getLastD default) x = true) :
    firstFitInsert accepts (b :: rest) x = b :: firstFitInsert accepts rest x := by
  unfold firstFitInsert
  rw [List.findIdx?_cons, if_neg (by simpa using h), List.findIdx?_succ]
  rcases hf : List.findIdx? (fun g => accepts (g.getLastD default) x) rest with _ | k
  · rw [hf]; rfl
  · rw [hf]; rfl

theorem addToBuckets_eq_firstFitInsert (thr : Option Thresholds) (x : Blk)
    (bs : List (List Blk)) :
    addToBuckets thr x bs =
      firstFitInsert (fun lastb b => should_add_to_bucket lastb b thr) bs x := by
  induction bs with
  | nil => rfl
  | cons b rest ih =>
    unfold addToBuckets
    by_cases h : should_add_to_bucket (b.getLastD default) x thr
    · rw [if_pos h]
      unfold firstFitInsert
      rw [List.findIdx?_cons, if_pos (by simpa using h)]
      rfl
    · rw [if_neg h, ih, firstFitInsert_cons]
      simpa using h

instance (t : Thresholds) (a b : Blk) : Decidable (C4_membership t a b) := by
  unfold C4_membership
  infer_instance

theorem should_add_to_bucket_iff (t : Thresholds) (lastb line : Blk) :
    should_add_to_bucket lastb line (some t) = true ↔ C4_membership t lastb line := by
  unfold should_add_to_bucket C4_membership
  dsimp only
  by_cases hv : t.vertical_bucket_tolerance ≤ ((|line.mid_y - lastb.mid_y| : ℤ) : ℚ)
  · rw [if_pos hv]
    simp only [Bool.false_eq_true, false_iff]
    rintro ⟨h1, _⟩
    exact absurd hv (not_le.mpr h1)
  · rw [if_neg hv]
    constructor
    · intro hb
      refine ⟨not_le.mp hv, ?_⟩
      by_contra hno
      push_neg at hno
      rw [if_neg (not_lt.mpr hno.1), if_neg (not_lt.mpr hno.2.1),
          if_neg (not_lt.mpr hno.2.2)] at hb
      exact absurd hb (by simp)
    · rintro ⟨hvlt, hA | hB | hC⟩
      · rw [if_pos hA]
      · by_cases hA : ((|line.start_x - lastb.start_x| : ℤ) : ℚ) <
            2 * t.horizontal_bucket_tolerance
        · rw [if_pos hA]
        · rw [if_neg hA, if_pos hB]
      · by_cases hA : ((|line.start_x - lastb.start_x| : ℤ) : ℚ) <
            2 * t.horizontal_bucket_tolerance
        · rw [if_pos hA]
        · rw [if_neg hA]
          by_cases hB : ((|line.mid_x - lastb.mid_x| : ℤ) : ℚ) <
              t.horizontal_bucket_tolerance
          · rw [if_pos hB]
          · rw [if_neg hB, if_pos hC]

/-- C4: with adaptive thresholds, the Block Builder seeds the first Block
with the first Line and assigns each later Line first-fit, in Block creation
order, to the first Block whose last member passes the claim's membership
test (vertical midline alignment strictly within the block vertical
tolerance, and `start_x` within twice the horizontal tolerance or `mid_x` or
`end_x` within it); a Line no open Block accepts starts a new Block. -/
theorem C4_block_builder_first_fit (t : Thresholds) (blocks : List Blk) :
    create_buckets blocks (some t) =
        firstFitRun (fun lastb line => decide (C4_membership t lastb line)) blocks ∧
      ∀ lastb line : Blk,
        (should_add_to_bucket lastb line (some t) = true ↔ C4_membership t lastb line) := by
  have hfun : (fun lastb line => should_add_to_bucket lastb line (some t)) =
      (fun lastb line => decide (C4_membership t lastb line)) := by
    funext a b
    by_cases h : C4_membership t a b
    · rw [decide_eq_true h, (should_add_to_bucket_iff t a b).mpr h]
    · rw [decide_eq_false h]
      rcases hb : should_add_to_bucket a b (some t) with _ | _
      · rfl
      · exact absurd ((should_add_to_bucket_iff t a b).mp hb) h
  refine ⟨?_, should_add_to_bucket_iff t⟩
  cases blocks with
  | nil => rfl
  | cons b rest =>
    show rest.foldl (fun bs x => addToBuckets (some t) x bs) [[b]] =
      rest.foldl (firstFitInsert (fun lastb line => decide (C4_membership t lastb line))) [[b]]
    congr 1
    funext bs x
    rw [addToBuckets_eq_firstFitInsert, hfun]

/-- Claim C5's membership test as the claim words it: vertical gap below the
average of the two average block heights, and one of the three horizontal
alignment tests of claim C4 against the average character width of the two
Blocks, including the doubled tolerance on `start_x`. -/
def C5_claimed_membership (ref_vb current_vb : VBucket) : Prop :=
  ((current_vb.start_y - ref_vb.end_y : ℤ) : ℚ) <
      (calculate_avg_block_height ref_vb + calculate_avg_block_height current_vb) / 2 ∧
    (((|current_vb.start_x - ref_vb.start_x| : ℤ) : ℚ) <
        2 * ((calculate_avg_char_width ref_vb + calculate_avg_char_width current_vb) / 2) ∨
      |current_vb.mid_x - ref_vb.mid_x| <
        (calculate_avg_char_width ref_vb + calculate_avg_char_width current_vb) / 2 ∨
      ((|current_vb.end_x - ref_vb.end_x| : ℤ) : ℚ) <
        (calculate_avg_char_width ref_vb + calculate_avg_char_width current_vb) / 2)

/-- The membership test the stage-8 source actually implements: as in
`C5_claimed_membership` but with no doubling on the `start_x` test — all
three alignment tests use the same average-character-width threshold. -/
def C5_membership (ref_vb current_vb : VBucket) : Prop :=
  ((current_vb.start_y - ref_vb.end_y : ℤ) : ℚ) <
      (calculate_avg_block_height ref_vb + calculate_avg_block_height current_vb) / 2 ∧
    (((|current_vb.start_x - ref_vb.start_x| : ℤ) : ℚ) <
        (calculate_avg_char_width ref_vb + calculate_avg_char_width current_vb) / 2 ∨
      |current_vb.mid_x - ref_vb.mid_x| <
        (calculate_avg_char_width ref_vb + calculate_avg_char_width current_vb) / 2 ∨
      ((|current_vb.end_x - ref_vb.end_x| : ℤ) : ℚ) <
        (calculate_avg_char_width ref_vb + calculate_avg_char_width current_vb) / 2)

instance (a b : VBucket) : Decidable (C5_claimed_membership a b) := by
  unfold C5_claimed_membership
  infer_instance

instance (a b : VBucket) : Decidable (C5_membership a b) := by
  unfold C5_membership
  infer_instance

/-- The single block of the C5 counterexample's reference Block. -/
def C5blkR : Blk :=
  { text := "r", start_x := 0, end_x := 100, start_y := 0, end_y := 10,
    mid_x := 50, mid_y := 5, mid_y_x := 5, height := 10, width := 100,
    confidence := 9/10, char_count := 10, word_count := 1,
    character_width := some 10 }

/-- The single block of the C5 counterexample's candidate Block. -/
def C5blkC : Blk :=
  { text := "c", start_x := 15, end_x := 115, start_y := 12, end_y := 22,
    mid_x := 65, mid_y := 17, mid_y_x := 17, height := 10, width := 100,
    confidence := 9/10, char_count := 10, word_count := 1,
    character_width := some 10 }

/-- The C5 counterexample's reference Block (average height 10, average
character width 10). -/
def C5vbR : VBucket := mkVBucket 0 [C5blkR]

/-- The C5 counterexample's candidate Block: vertical gap 2, `start_x`
difference 15 — inside the claimed doubled tolerance 20, outside the
implemented tolerance 10; `mid_x` and `end_x` differences also 15. -/
def C5vbC : VBucket := mkVBucket 1 [C5blkC]

/-- C5 counterexample: the claimed membership test (doubled `start_x`
tolerance) accepts this candidate into the reference Block's Segment, but
the implemented test rejects it — the source does not double the `start_x`
tolerance — so the Segment Builder opens a second Segment. -/
theorem C5_counterexample :
    C5_claimed_membership C5vbR C5vbC ∧
      should_add_to_horizontal_bucket [C5vbR] C5vbC = false ∧
      create_horizontal_buckets [C5vbR, C5vbC] = [[C5vbR], [C5vbC]] := by
  refine ⟨of_decide_eq_true (by with_unfolding_all rfl), ?_, ?_⟩
  · with_unfolding_all rfl
  · with_unfolding_all rfl

theorem firstFitInsert_cons_vb (accepts : VBucket → VBucket → Bool)
    (b : List VBucket) (rest : List (List VBucket)) (x : VBucket)
    (h : ¬ accepts (b.getLastD default) x = true) :
    firstFitInsert accepts (b :: rest) x = b :: firstFitInsert accepts rest x :=
  firstFitInsert_cons accepts b rest x h

theorem addToHBuckets_eq_firstFitInsert (x : VBucket) (hbs : List (List VBucket)) :
    addToHBuckets x hbs =
      firstFitInsert (fun ref cur =>
        should_add_to_horizontal_bucket [ref] cur) hbs x := by
  induction hbs with
  | nil => rfl
  | cons hb rest ih =>
    unfold addToHBuckets
    have hsame : should_add_to_horizontal_bucket hb x =
        should_add_to_horizontal_bucket [hb.getLastD default] x := by
      unfold should_add_to_horizontal_bucket
      rfl
    by_cases h : should_add_to_horizontal_bucket hb x
    · rw [if_pos h]
      unfold firstFitInsert
      rw [List.findIdx?_cons,
          if_pos (show (fun ref cur => should_add_to_horizontal_bucket [ref] cur)
              (hb.getLastD default) x = true from by
            show should_add_to_horizontal_bucket [hb.getLastD default] x = true
            rw [← hsame]; exact h)]
      rfl
    · rw [if_neg h, ih, firstFitInsert_cons]
      show ¬ should_add_to_horizontal_bucket [hb.getLastD default] x = true
      rw [← hsame]
      exact h

theorem should_add_to_horizontal_bucket_iff (hb : List VBucket) (cur : VBucket) :
    should_add_to_horizontal_bucket hb cur = true ↔
      C5_membership (hb.getLastD default) cur := by
  unfold should_add_to_horizontal_bucket C5_membership
  dsimp only
  by_cases hv : (calculate_avg_block_height (hb.getLastD default) +
      calculate_avg_block_height cur) / 2 ≤
      ((cur.start_y - (hb.getLastD default).end_y : ℤ) : ℚ)
  · rw [if_pos hv]
    simp only [Bool.false_eq_true, false_iff]
    rintro ⟨h1, _⟩
    exact absurd hv (not_le.mpr h1)
  · rw [if_neg hv]
    constructor
    · intro hbool
      refine ⟨not_le.mp hv, ?_⟩
      by_contra hno
      push_neg at hno
      rw [if_neg (not_lt.mpr hno.1), if_neg (not_lt.mpr hno.2.1),
          if_neg (not_lt.mpr hno.2.2)] at hbool
      exact absurd hbool (by simp)
    · rintro ⟨hvlt, hA | hB | hC⟩
      · rw [if_pos hA]
      · by_cases hA : ((|cur.start_x - (hb.getLastD default).start_x| : ℤ) : ℚ) <
            (calculate_avg_char_width (hb.getLastD default) +
              calculate_avg_char_width cur) / 2
        · rw [if_pos hA]
        · rw [if_neg hA, if_pos hB]
      · by_cases hA : ((|cur.start_x - (hb.getLastD default).start_x| : ℤ) : ℚ) <
            (calculate_avg_char_width (hb.getLastD default) +
              calculate_avg_char_width cur) / 2
        · rw [if_pos hA]
        · rw [if_neg hA]
          by_cases hB : |cur.mid_x - (hb.getLastD default).mid_x| <
              (calculate_avg_char_width (hb.getLastD default) +
                calculate_avg_char_width cur) / 2
          · rw [if_pos hB]
          · rw [if_neg hB, if_pos hC]

/-- C5 amended: the Segment Builder runs the same first-fit algorithm as the
Block Builder one level up — a Block joins the first open Segment whose last
Block satisfies `vertical_gap < average(avg_height, avg_height)` and one of
the three horizontal alignment tests against the average character width of
the two Blocks — but, unlike the Block Builder, the `start_x` tolerance is
NOT doubled: all three alignment tests use the same threshold
(`C5_counterexample` shows the claimed doubled test disagreeing with the
source). -/
theorem C5_segment_builder_first_fit (vbs : List VBucket) :
    create_horizontal_buckets vbs =
        firstFitRun (fun ref cur => decide (C5_membership ref cur)) vbs ∧
      ∀ (hb : List VBucket) (cur : VBucket),
        (should_add_to_horizontal_bucket hb cur = true ↔
          C5_membership (hb.getLastD default) cur) := by
  have hfun : (fun ref cur => should_add_to_horizontal_bucket [ref] cur) =
      (fun ref cur => decide (C5_membership ref cur)) := by
    funext a b
    by_cases h : C5_membership a b
    · rw [decide_eq_true h,
          (should_add_to_horizontal_bucket_iff [a] b).mpr (by simpa using h)]
    · rw [decide_eq_false h]
      rcases hb : should_add_to_horizontal_bucket [a] b with _ | _
      · rfl
      · exact absurd ((should_add_to_horizontal_bucket_iff [a] b).mp hb) (by simpa using h)
  refine ⟨?_, should_add_to_horizontal_bucket_iff⟩
  cases vbs with
  | nil => rfl
  | cons v rest =>
    show rest.foldl (fun hbs x => addToHBuckets x hbs) [[v]] =
      rest.foldl (firstFitInsert (fun ref cur => decide (C5_membership ref cur))) [[v]]
    congr 1
    funext hbs x
    rw [addToHBuckets_eq_firstFitInsert, hfun]

theorem stackLoop_eq_of_match {l : List HBucket} {r c : ℕ}
    (href : r < l.length) (hcur : c < l.length)
    (hm : (is_vertically_aligned (l.getD r default) (l.getD c default) &&
      is_vertically_close (l.getD r default) (l.getD c default)) = true) :
    stackLoop l r c = stackLoop (moveAfter l r c) (r + 1) (r + 2) := by
  rw [stackLoop, dif_pos href, dif_pos hcur, if_pos hm]

theorem stackLoop_eq_of_nomatch {l : List HBucket} {r c : ℕ}
    (href : r < l.length) (hcur : c < l.length)
    (hm : (is_vertically_aligned (l.getD r default) (l.getD c default) &&
      is_vertically_close (l.getD r default) (l.getD c default)) = false) :
    stackLoop l r c = stackLoop l r (c + 1) := by
  rw [stackLoop, dif_pos href, dif_pos hcur,
      if_neg (fun hc => Bool.false_ne_true (hm ▸ hc))]

theorem stackLoop_eq_of_cur_ge {l : List HBucket} {r c : ℕ}
    (href : r < l.length) (hcur : ¬ c < l.length) :
    stackLoop l r c = stackLoop l (r + 1) (r + 2) := by
  rw [stackLoop, dif_pos href, dif_neg hcur]

theorem stackLoop_eq_of_ref_ge {l : List HBucket} {r c : ℕ}
    (href : ¬ r < l.length) : stackLoop l r c = l := by
  rw [stackLoop, dif_neg href]

/-- A Segment carrying only the normalized edges stage 9 looks at (all other
fields zero). -/
def mkSeg (left right top bottom : ℤ) : HBucket :=
  { horizontal_bucket_id := 0, num_vertical_buckets := 0, num_text_blocks := 0,
    start_x := 0, end_x := 0, start_y := 0, end_y := 0, mid_x := 0, mid_y := 0,
    min_mid_y_x := 0, width := 0, height := 0, vertical_buckets := [],
    left_edge := left, right_edge := right, top_edge := top, bottom_edge := bottom }

/-- Scenario C's first Segment. -/
def C6seg1 : HBucket := mkSeg 10 45 10 30

/-- Scenario C's second Segment. -/
def C6seg2 : HBucket := mkSeg 11 44 32 50

/-- An intervening Segment that is column-aligned with and vertically close
to Scenario C's second Segment but not to its first. -/
def C6seg0 : HBucket := mkSeg 14 60 5 30

/-- C6 counterexample: with the intervening Segment `C6seg0` placed first,
the Reorderer's scan from `C6seg0` captures Scenario C's second Segment
before the first Segment is ever the reference, and the chain then pulls the
first Segment behind the second: the final order is `[C6seg0, C6seg2,
C6seg1]`, so the second Segment is NOT moved to the position immediately
after the first — it ends up before it. -/
theorem C6_counterexample :
    vertical_column_stack_sort [C6seg0, C6seg1, C6seg2] = [C6seg0, C6seg2, C6seg1] ∧
      ¬ ([C6seg0, C6seg2, C6seg1].indexOf C6seg2 =
          [C6seg0, C6seg2, C6seg1].indexOf C6seg1 + 1) := by
  constructor
  · unfold vertical_column_stack_sort
    rw [stackLoop_eq_of_nomatch (by norm_num) (by norm_num) (by with_unfolding_all rfl),
        stackLoop_eq_of_match (by norm_num) (by norm_num) (by with_unfolding_all rfl)]
    rw [show moveAfter [C6seg0, C6seg1, C6seg2] 0 2 = [C6seg0, C6seg2, C6seg1] from rfl]
    rw [stackLoop_eq_of_match (by norm_num) (by norm_num) (by with_unfolding_all rfl)]
    rw [show moveAfter [C6seg0, C6seg2, C6seg1] 1 2 = [C6seg0, C6seg2, C6seg1] from rfl]
    rw [stackLoop_eq_of_cur_ge (by norm_num) (by norm_num),
        stackLoop_eq_of_ref_ge (by norm_num)]
  · intro h
    rw [show [C6seg0, C6seg2, C6seg1].indexOf C6seg2 = 1 from by with_unfolding_all rfl,
        show [C6seg0, C6seg2, C6seg1].indexOf C6seg1 = 2 from by with_unfolding_all rfl] at h
    omega

/-- C6 amended: in the three-Segment list `[Scenario C's Segment 1, X,
Scenario C's Segment 2]`, where the intervening Segment X is not both
column-aligned with and vertically close to Segment 1, the Reorderer does
move Segment 2 to the position immediately after Segment 1 (left-edge
difference 1 and gap 2, both within the 3-point tolerances) and renumbers
the Segment ids 0, 1, 2 in the final order; `C6_counterexample` shows the
restriction on the intervening content is necessary. -/
theorem C6_column_stack_three (x : HBucket)
    (hx : (is_vertically_aligned C6seg1 x && is_vertically_close C6seg1 x) = false) :
    process_page_stage9 [C6seg1, x, C6seg2] =
      [{ C6seg1 with horizontal_bucket_id := 0 },
       { C6seg2 with horizontal_bucket_id := 1 },
       { x with horizontal_bucket_id := 2 }] := by
  have hstack : stackLoop [C6seg1, x, C6seg2] 0 1 = [C6seg1, C6seg2, x] := by
    rw [@stackLoop_eq_of_nomatch [C6seg1, x, C6seg2] 0 1 (by norm_num) (by norm_num) hx,
        @stackLoop_eq_of_match [C6seg1, x, C6seg2] 0 2 (by norm_num) (by norm_num)
          (by with_unfolding_all rfl)]
    rw [show moveAfter [C6seg1, x, C6seg2] 0 2 = [C6seg1, C6seg2, x] from rfl]
    by_cases hm : (is_vertically_aligned C6seg2 x && is_vertically_close C6seg2 x) = true
    · rw [@stackLoop_eq_of_match [C6seg1, C6seg2, x] 1 2 (by norm_num) (by norm_num) hm]
      rw [show moveAfter [C6seg1, C6seg2, x] 1 2 = [C6seg1, C6seg2, x] from rfl]
      rw [@stackLoop_eq_of_cur_ge [C6seg1, C6seg2, x] 2 3 (by norm_num) (by norm_num),
          @stackLoop_eq_of_ref_ge [C6seg1, C6seg2, x] 3 4 (by norm_num)]
    · have hm' : (is_vertically_aligned C6seg2 x && is_vertically_close C6seg2 x) = false := by
        cases h2 : (is_vertically_aligned C6seg2 x && is_vertically_close C6seg2 x)
        · rfl
        · exact absurd h2 hm
      rw [@stackLoop_eq_of_nomatch [C6seg1, C6seg2, x] 1 2 (by norm_num) (by norm_num) hm']
      rw [@stackLoop_eq_of_cur_ge [C6seg1, C6seg2, x] 1 3 (by norm_num) (by norm_num),
          @stackLoop_eq_of_cur_ge [C6seg1, C6seg2, x] 2 3 (by norm_num) (by norm_num),
          @stackLoop_eq_of_ref_ge [C6seg1, C6seg2, x] 3 4 (by norm_num)]
  unfold process_page_stage9 vertical_column_stack_sort
  rw [hstack]
  rfl

/-- A concrete intervening Segment for the C6 witness: aligned with neither
edge of Segment 1. -/
def C6segX : HBucket := mkSeg 50 90 11 29

theorem C6_column_stack_three_witness :
    (is_vertically_aligned C6seg1 C6segX && is_vertically_close C6seg1 C6segX) = false ∧
      process_page_stage9 [C6seg1, C6segX, C6seg2] =
        [{ C6seg1 with horizontal_bucket_id := 0 },
         { C6seg2 with horizontal_bucket_id := 1 },
         { C6segX with horizontal_bucket_id := 2 }] :=
  ⟨by with_unfolding_all rfl,
   C6_column_stack_three C6segX (by with_unfolding_all rfl)⟩

/-- C7 counterexample block: `mid_y` 10 at the left page edge. -/
def C7A : Blk :=
  { text := "a", start_x := 0, end_x := 10, start_y := 5, end_y := 15,
    mid_x := 5, mid_y := 10, mid_y_x := 10, height := 10, width := 10,
    confidence := 9/10, char_count := 1, word_count := 1,
    character_width := some 10 }

/-- C7 counterexample block: `mid_y` 9 with `start_x` 51, so its stored key
10.02 puts it after the first block, but halving rounds its `mid_y` down to
4 (banker's rounding of 4.5) and its `start_x` up to 26, giving post-halving
key 4.52 against the first block's 5. -/
def C7B : Blk :=
  { text := "b", start_x := 51, end_x := 61, start_y := 4, end_y := 14,
    mid_x := 56, mid_y := 9, mid_y_x := 9 + 51/50, height := 10, width := 10,
    confidence := 9/10, char_count := 1, word_count := 1,
    character_width := some 10 }

/-- C7 counterexample: the Fragment Assembler sorts by the composite key
BEFORE halving the coordinates and never re-sorts, and the rounding in the
halving can invert the order of the recomputed keys: on this two-fragment
page the output's post-halving composite keys are 5 then 4.52 — not
ascending. -/
theorem C7_counterexample :
    merge_page_quadrants [C7A, C7B] (3/10) = [scale_block C7A, scale_block C7B] ∧
      ¬ List.Pairwise
        (fun a b : Blk =>
          (a.mid_y : ℚ) + (a.start_x : ℚ) / 50 ≤ (b.mid_y : ℚ) + (b.start_x : ℚ) / 50)
        (merge_page_quadrants [C7A, C7B] (3/10)) := by
  have he : merge_page_quadrants [C7A, C7B] (3/10) = [scale_block C7A, scale_block C7B] := by
    with_unfolding_all rfl
  refine ⟨he, ?_⟩
  intro h
  rw [he] at h
  have h01 := (List.pairwise_cons.mp h).1 (scale_block C7B) (by simp)
  have hfalse : decide
      ((((scale_block C7A).mid_y : ℚ) + ((scale_block C7A).start_x : ℚ) / 50) ≤
        (((scale_block C7B).mid_y : ℚ) + ((scale_block C7B).start_x : ℚ) / 50)) = false := by
    with_unfolding_all rfl
  exact absurd h01 (of_decide_eq_false hfalse)

/-- C7 amended: the Fragment Assembler's output is the elementwise halving
of the confidence-surviving fragments stably sorted by their stored
pre-halving composite key `mid_y_x` (ties keep insertion order), and that
list is sorted ascending by the stored key; the composite key recomputed
from the halved output coordinates, however, need not be ascending
(`C7_counterexample`). -/
theorem C7_assembler_order (raw : List Blk) (c : ℚ) :
    merge_page_quadrants raw c = (pySorted blkKeyLe (confFilter raw c)).map scale_block ∧
      List.Pairwise (fun a b : Blk => a.mid_y_x ≤ b.mid_y_x)
        (pySorted blkKeyLe (confFilter raw c)) := by
  constructor
  · rfl
  · have htot : ∀ a b : Blk, blkKeyLe a b = true ∨ blkKeyLe b a = true := by
      intro a b
      unfold blkKeyLe
      rcases le_total a.mid_y_x b.mid_y_x with h | h
      · exact Or.inl (decide_eq_true h)
      · exact Or.inr (decide_eq_true h)
    have htr : ∀ a b c : Blk, blkKeyLe a b = true → blkKeyLe b c = true →
        blkKeyLe a c = true := by
      intro a b c hab hbc
      unfold blkKeyLe at *
      exact decide_eq_true (le_trans (of_decide_eq_true hab) (of_decide_eq_true hbc))
    exact (pairwise_pySorted htot htr (confFilter raw c)).imp
      (fun h => of_decide_eq_true h)

/-- All four normalized edges of a Segment lie in [0, 100]. -/
def hbEdgesInRange (hb : HBucket) : Prop :=
  0 ≤ hb.left_edge ∧ hb.left_edge ≤ 100 ∧
    0 ≤ hb.right_edge ∧ hb.right_edge ≤ 100 ∧
    0 ≤ hb.top_edge ∧ hb.top_edge ≤ 100 ∧
    0 ≤ hb.bottom_edge ∧ hb.bottom_edge ≤ 100

instance (hb : HBucket) : Decidable (hbEdgesInRange hb) := by
  unfold hbEdgesInRange
  infer_instance

/-- A vertical bucket whose bounding box lies inside the fixed 2550 by 3300
reference page. -/
def vbInsidePage (vb : VBucket) : Prop :=
  0 ≤ vb.start_x ∧ vb.start_x ≤ 2550 ∧ 0 ≤ vb.end_x ∧ vb.end_x ≤ 2550 ∧
    0 ≤ vb.start_y ∧ vb.start_y ≤ 3300 ∧ 0 ≤ vb.end_y ∧ vb.end_y ≤ 3300

instance (vb : VBucket) : Decidable (vbInsidePage vb) := by
  unfold vbInsidePage
  infer_instance

/-- The block of the C8 counterexample: its x-coordinates lie beyond the
2550-pixel reference page width. -/
def C8blk : Blk :=
  { text := "x", start_x := 6000, end_x := 6100, start_y := 0, end_y := 10,
    mid_x := 6050, mid_y := 5, mid_y_x := 125, height := 10, width := 100,
    confidence := 9/10, char_count := 1, word_count := 1,
    character_width := some 100 }

/-- The C8 counterexample's single vertical bucket. -/
def C8vb : VBucket := mkVBucket 0 [C8blk]

/-- C8 counterexample: normalization divides by the fixed reference page
dimensions with no clamping, so a Segment whose pixel coordinates exceed the
reference page (here `start_x = 6000 > 2550`) gets `left_edge = 235`,
outside [0, 100]. -/
theorem C8_counterexample :
    ¬ (∀ hb ∈ process_page_horizontal_buckets [C8vb], hbEdgesInRange hb) := by
  intro hall
  have hout : process_page_horizontal_buckets [C8vb] =
      [(process_page_horizontal_buckets [C8vb]).getD 0 default] := by
    with_unfolding_all rfl
  have hmem : (process_page_horizontal_buckets [C8vb]).getD 0 default ∈
      process_page_horizontal_buckets [C8vb] := by
    rw [hout]
    exact List.mem_singleton_self _
  have hrange := hall _ hmem
  have h235 : ((process_page_horizontal_buckets [C8vb]).getD 0 default).left_edge = 235 := by
    with_unfolding_all rfl
  unfold hbEdgesInRange at hrange
  omega

theorem listMinZ_bounds {l : List ℤ} {a b : ℤ} (hne : l ≠ [])
    (h : ∀ x ∈ l, a ≤ x ∧ x ≤ b) : a ≤ listMinZ l ∧ listMinZ l ≤ b := by
  cases l with
  | nil => exact absurd rfl hne
  | cons x xs =>
    unfold listMinZ
    clear hne
    induction xs generalizing x with
    | nil =>
      simpa using h x (by simp)
    | cons y ys ih =>
      have hy := h y (by simp)
      have hx := h x (by simp)
      simp only [List.foldl_cons]
      exact ih (min x y)
        (fun z hz => by
          rcases List.mem_cons.mp hz with hz | hz
          · subst hz
            constructor
            · exact le_min hx.1 hy.1
            · exact le_trans (min_le_left x y) hx.2
          · exact h z (by simp [hz]))

theorem listMaxZ_bounds {l : List ℤ} {a b : ℤ} (hne : l ≠ [])
    (h : ∀ x ∈ l, a ≤ x ∧ x ≤ b) : a ≤ listMaxZ l ∧ listMaxZ l ≤ b := by
  cases l with
  | nil => exact absurd rfl hne
  | cons x xs =>
    unfold listMaxZ
    clear hne
    induction xs generalizing x with
    | nil =>
      simpa using h x (by simp)
    | cons y ys ih =>
      have hy := h y (by simp)
      have hx := h x (by simp)
      simp only [List.foldl_cons]
      exact ih (max x y)
        (fun z hz => by
          rcases List.mem_cons.mp hz with hz | hz
          · subst hz
            constructor
            · exact le_trans hx.1 (le_max_left x y)
            · exact max_le hx.2 hy.2
          · exact h z (by simp [hz]))

theorem pyRound_bounds {q : ℚ} {b : ℤ} (h0 : 0 ≤ q) (hb : q ≤ (b : ℚ)) :
    0 ≤ pyRound q ∧ pyRound q ≤ b := by
  have hf0 : 0 ≤ ⌊q⌋ := Int.floor_nonneg.mpr h0
  have hfb : ⌊q⌋ ≤ b := by
    have h1 : (⌊q⌋ : ℚ) ≤ (b : ℚ) := le_trans (Int.floor_le q) hb
    exact_mod_cast h1
  have hkey : (1/2 : ℚ) ≤ q - (⌊q⌋ : ℚ) → ⌊q⌋ + 1 ≤ b := by
    intro hr
    have h1 : (⌊q⌋ : ℚ) + 1/2 ≤ q := by linarith
    have h2 : (⌊q⌋ : ℚ) < (b : ℚ) := by linarith
    have h3 : ⌊q⌋ < b := by exact_mod_cast h2
    omega
  unfold pyRound
  dsimp only
  constructor
  · split_ifs <;> omega
  · split_ifs with ha hb2 hc
    · exact hfb
    · exact hkey (le_of_lt hb2)
    · exact hfb
    · exact hkey (not_lt.mp ha)

theorem addToHBuckets_mem {x : VBucket} {hbs : List (List VBucket)}
    {g : List VBucket} (hg : g ∈ addToHBuckets x hbs) :
    ∀ v ∈ g, v = x ∨ ∃ g' ∈ hbs, v ∈ g' := by
  induction hbs generalizing g with
  | nil =>
    intro v hv
    unfold addToHBuckets at hg
    rcases List.mem_singleton.mp hg with rfl
    simp at hv
    exact Or.inl hv
  | cons hb rest ih =>
    intro v hv
    unfold addToHBuckets at hg
    by_cases h : should_add_to_horizontal_bucket hb x
    · rw [if_pos h] at hg
      rcases List.mem_cons.mp hg with rfl | hg
      · rcases List.mem_append.mp hv with hv | hv
        · exact Or.inr ⟨hb, by simp, hv⟩
        · exact Or.inl (List.mem_singleton.mp hv)
      · exact Or.inr (by
          rcases List.mem_cons.mp (List.mem_cons_of_mem hb hg) with h2 | h2
          · exact ⟨g, List.mem_cons_of_mem hb hg, hv⟩
          · exact ⟨g, List.mem_cons_of_mem hb hg, hv⟩)
    · rw [if_neg h] at hg
      rcases List.mem_cons.mp hg with rfl | hg
      · exact Or.inr ⟨g, by simp, hv⟩
      · rcases ih hg v hv with h2 | ⟨g', hg', hvg'⟩
        · exact Or.inl h2
        · exact Or.inr ⟨g', List.mem_cons_of_mem hb hg', hvg'⟩

theorem addToHBuckets_ne_nil {x : VBucket} {hbs : List (List VBucket)}
    (hne : ∀ g ∈ hbs, g ≠ []) : ∀ g ∈ addToHBuckets x hbs, g ≠ [] := by
  induction hbs with
  | nil =>
    intro g hg
    unfold addToHBuckets at hg
    rcases List.mem_singleton.mp hg with rfl
    simp
  | cons hb rest ih =>
    intro g hg
    unfold addToHBuckets at hg
    by_cases h : should_add_to_horizontal_bucket hb x
    · rw [if_pos h] at hg
      rcases List.mem_cons.mp hg with rfl | hg
      · simp
      · exact hne g (List.mem_cons_of_mem hb hg)
    · rw [if_neg h] at hg
      rcases List.mem_cons.mp hg with rfl | hg
      · exact hne g (by simp)
      · exact ih (fun g' hg' => hne g' (List.mem_cons_of_mem hb hg')) g hg

theorem create_horizontal_buckets_mem {vbs : List VBucket}
    {g : List VBucket} (hg : g ∈ create_horizontal_buckets vbs) :
    g ≠ [] ∧ ∀ v ∈ g, v ∈ vbs := by
  unfold create_horizontal_buckets at hg
  cases vbs with
  | nil => simp at hg
  | cons v rest =>
    suffices h : ∀ (xs : List VBucket) (init : List (List VBucket)),
        (∀ u ∈ xs, u ∈ v :: rest) →
        (∀ g' ∈ init, g' ≠ [] ∧ ∀ u ∈ g', u ∈ v :: rest) →
        ∀ g' ∈ xs.foldl (fun hbs x => addToHBuckets x hbs) init,
          g' ≠ [] ∧ ∀ u ∈ g', u ∈ v :: rest by
      exact h rest [[v]] (fun u hu => List.mem_cons_of_mem v hu)
        (fun g' hg' => by
          rcases List.mem_singleton.mp hg' with rfl
          exact ⟨by simp, fun u hu => by
            rw [List.mem_singleton.mp hu]
            exact List.mem_cons_self v rest⟩)
        g hg
    intro xs
    induction xs with
    | nil =>
      intro init hxs hinit g' hg'
      exact hinit g' hg'
    | cons y ys ih =>
      intro init hxs hinit g' hg'
      simp only [List.foldl_cons] at hg'
      exact ih (addToHBuckets y init)
        (fun u hu => hxs u (List.mem_cons_of_mem y hu))
        (fun g2 hg2 =>
          ⟨addToHBuckets_ne_nil (fun g3 hg3 => (hinit g3 hg3).1) g2 hg2,
           fun u hu => by
            rcases addToHBuckets_mem hg2 u hu with rfl | ⟨g3, hg3, hug3⟩
            · exact hxs u (by simp)
            · exact (hinit g3 hg3).2 u hug3⟩)
        g' hg'

theorem mem_mapIdx_ex {α β : Type} (f : ℕ → α → β) (l : List α) (b : β)
    (h : b ∈ l.mapIdx f) : ∃ i a, a ∈ l ∧ b = f i a := by
  induction l generalizing f with
  | nil =>
    rw [show List.mapIdx f [] = [] from rfl] at h
    simp at h
  | cons x xs ih =>
    rw [List.mapIdx_cons] at h
    rcases List.mem_cons.mp h with rfl | h
    · exact ⟨0, x, by simp⟩
    · rcases ih (fun i => f (i + 1)) h with ⟨i, a, ha, rfl⟩
      exact ⟨i + 1, a, List.mem_cons_of_mem x ha, rfl⟩

theorem edge_in_range {x d : ℤ} (hd : 0 < d) (h0 : 0 ≤ x) (h1 : x ≤ d) :
    0 ≤ pyRound ((x : ℚ) / (d : ℚ) * 100) ∧ pyRound ((x : ℚ) / (d : ℚ) * 100) ≤ 100 := by
  have hdq : (0 : ℚ) < (d : ℚ) := by exact_mod_cast hd
  have hxq : (0 : ℚ) ≤ (x : ℚ) := by exact_mod_cast h0
  have h1q : (x : ℚ) ≤ (d : ℚ) := by exact_mod_cast h1
  apply pyRound_bounds
  · exact mul_nonneg (div_nonneg hxq (le_of_lt hdq)) (by norm_num)
  · push_cast
    rw [div_mul_eq_mul_div, div_le_iff hdq]
    nlinarith

/-- C8 amended: the normalized edges of every output Segment lie in [0, 100]
whenever the Segments' raw pixel coordinates lie inside the fixed 2550 by
3300 reference page; with coordinates beyond the reference page the
normalization has no clamp and exceeds 100 (`C8_counterexample`). -/
theorem C8_normalization_bounds (vbs : List VBucket)
    (h : ∀ vb ∈ vbs, vbInsidePage vb) :
    ∀ hb ∈ process_page_horizontal_buckets vbs, hbEdgesInRange hb := by
  intro hb hmem
  unfold process_page_horizontal_buckets normalize_bucket_coordinates at hmem
  dsimp only at hmem
  rcases List.mem_map.mp hmem with ⟨hb0, hmem0, rfl⟩
  rw [mem_pySorted] at hmem0
  rcases mem_mapIdx_ex _ _ _ hmem0 with ⟨i, g, hgmem, rfl⟩
  rcases create_horizontal_buckets_mem hgmem with ⟨hne, hsub⟩
  have hmapne : ∀ (f : VBucket → ℤ), g.map f ≠ [] := by
    intro f hf
    exact hne (List.map_eq_nil_iff.mp hf)
  have hbx : ∀ vb ∈ g, (0 ≤ vb.start_x ∧ vb.start_x ≤ 2550) ∧
      (0 ≤ vb.end_x ∧ vb.end_x ≤ 2550) ∧
      (0 ≤ vb.start_y ∧ vb.start_y ≤ 3300) ∧
      (0 ≤ vb.end_y ∧ vb.end_y ≤ 3300) := by
    intro vb hvb
    have hv := h vb (hsub vb hvb)
    unfold vbInsidePage at hv
    exact ⟨⟨hv.1, hv.2.1⟩, ⟨hv.2.2.1, hv.2.2.2.1⟩,
      ⟨hv.2.2.2.2.1, hv.2.2.2.2.2.1⟩, ⟨hv.2.2.2.2.2.2.1, hv.2.2.2.2.2.2.2⟩⟩
  have hsx : 0 ≤ (mkHBucket i g).start_x ∧ (mkHBucket i g).start_x ≤ 2550 := by
    apply listMinZ_bounds (hmapne _)
    intro x hx
    rcases List.mem_map.mp hx with ⟨vb, hvb, rfl⟩
    exact (hbx vb hvb).1
  have hex : 0 ≤ (mkHBucket i g).end_x ∧ (mkHBucket i g).end_x ≤ 2550 := by
    apply listMaxZ_bounds (hmapne _)
    intro x hx
    rcases List.mem_map.mp hx with ⟨vb, hvb, rfl⟩
    exact (hbx vb hvb).2.1
  have hsy : 0 ≤ (mkHBucket i g).start_y ∧ (mkHBucket i g).start_y ≤ 3300 := by
    apply listMinZ_bounds (hmapne _)
    intro x hx
    rcases List.mem_map.mp hx with ⟨vb, hvb, rfl⟩
    exact (hbx vb hvb).2.2.1
  have hey : 0 ≤ (mkHBucket i g).end_y ∧ (mkHBucket i g).end_y ≤ 3300 := by
    apply listMaxZ_bounds (hmapne _)
    intro x hx
    rcases List.mem_map.mp hx with ⟨vb, hvb, rfl⟩
    exact (hbx vb hvb).2.2.2
  unfold hbEdgesInRange
  simp only [ite_self]
  refine ⟨?_, ?_, ?_, ?_, ?_, ?_, ?_, ?_⟩
  · exact (edge_in_range (by norm_num) hsx.1 hsx.2).1
  · exact (edge_in_range (by norm_num) hsx.1 hsx.2).2
  · exact (edge_in_range (by norm_num) hex.1 hex.2).1
  · exact (edge_in_range (by norm_num) hex.1 hex.2).2
  · exact (edge_in_range (by norm_num) hsy.1 hsy.2).1
  · exact (edge_in_range (by norm_num) hsy.1 hsy.2).2
  · exact (edge_in_range (by norm_num) hey.1 hey.2).1
  · exact (edge_in_range (by norm_num) hey.1 hey.2).2

theorem C8_normalization_bounds_witness :
    (∀ vb ∈ [C5vbR], vbInsidePage vb) ∧
      ∀ hb ∈ process_page_horizontal_buckets [C5vbR], hbEdgesInRange hb :=
  ⟨fun vb hvb => by
      rcases List.mem_singleton.mp hvb with rfl
      exact of_decide_eq_true (by with_unfolding_all rfl),
   C8_normalization_bounds [C5vbR] (fun vb hvb => by
      rcases List.mem_singleton.mp hvb with rfl
      exact of_decide_eq_true (by with_unfolding_all rfl))⟩

/-- C9: a page that is empty after confidence filtering flows through the
whole pipeline as empty — zero output Segments and no fault (every stage is
a total function here, so "no exception" is totality) — and the individual
stages short-circuit on empty or single-element input, the Line Merger
returning a sub-two-element list unchanged. -/
theorem C9_empty_page (c : ℚ) (thr : Option Thresholds) (b : Blk) :
    pipeline_page [] c thr = [] ∧
      merge_page_quadrants [] c = [] ∧
      merge_blocks_recursive [] thr = [] ∧
      merge_blocks_recursive [b] thr = [b] ∧
      merge_horizontal_for_page [] thr = [] ∧
      create_buckets [] thr = [] ∧
      process_page_buckets [] thr = [] ∧
      create_horizontal_buckets [] = [] ∧
      process_page_horizontal_buckets [] = [] ∧
      vertical_column_stack_sort [] = [] ∧
      process_page_stage9 [] = [] := by
  have h9 : process_page_stage9 [] = [] := by
    unfold process_page_stage9 vertical_column_stack_sort
    rw [stackLoop_eq_of_ref_ge (by norm_num)]
    rfl
  refine ⟨?_, rfl, rfl, rfl, rfl, rfl, rfl, rfl, rfl, ?_, h9⟩
  · show process_page_stage9 [] = []
    exact h9
  · unfold vertical_column_stack_sort
    rw [stackLoop_eq_of_ref_ge (by norm_num)]

/-- C10: the Reorderer's vertical-closeness test has no lower bound — it
holds exactly when `current.top_edge - ref.bottom_edge ≤ 3`, including
arbitrarily negative gaps (overlap, or current entirely above the
reference) — and whenever a scanned pair is edge-aligned and vertically
close the loop splices the current Segment to immediately after the
reference. -/
theorem C10_vertical_close_no_lower_bound (r c : HBucket) :
    (is_vertically_close r c = true ↔ c.top_edge - r.bottom_edge ≤ 3) ∧
      (∀ (l : List HBucket) (ri ci : ℕ), ri < l.length → ci < l.length →
        (is_vertically_aligned (l.getD ri default) (l.getD ci default) &&
          is_vertically_close (l.getD ri default) (l.getD ci default)) = true →
        stackLoop l ri ci = stackLoop (moveAfter l ri ci) (ri + 1) (ri + 2)) := by
  constructor
  · unfold is_vertically_close
    exact ⟨of_decide_eq_true, decide_eq_true⟩
  · intro l ri ci h1 h2 h3
    exact stackLoop_eq_of_match h1 h2 h3

/-- A reference Segment for the C10 witness, with bottom edge 50. -/
def C10r : HBucket := mkSeg 10 45 10 50

/-- A current Segment for the C10 witness: it lies entirely above the
reference's bottom edge (gap 10 - 50 = -40), yet counts as vertically
close. -/
def C10c : HBucket := mkSeg 11 44 10 30

theorem C10_vertical_close_no_lower_bound_witness :
    is_vertically_close C10r C10c = true ∧
      C10c.top_edge - C10r.bottom_edge = -40 ∧
      stackLoop [C10r, C10c] 0 1 = stackLoop (moveAfter [C10r, C10c] 0 1) 1 2 :=
  ⟨(C10_vertical_close_no_lower_bound C10r C10c).1.mpr (by decide),
   by decide,
   (C10_vertical_close_no_lower_bound C10r C10c).2 [C10r, C10c] 0 1
     (by norm_num) (by norm_num) (by decide)⟩
